import Mathlib

/-!
# git-lfs rsync custom transfer agent (`main.go`)

A shallow embedding of the agent's read loop and handlers, of the JSON encoding
of its responses, and the properties proved about them.

Go strings are byte sequences, so a string is a list of bytes here (each a
natural number below 256).  The process talks to its surroundings through
`os.Args`, `json.Unmarshal` of a request line, `ioutil.TempFile`,
`exec.Command("rsync", ...).CombinedOutput()` and `bufio.Writer.Write`; the
outcome of each of these calls is read from an `Env`, and everything the
program does to the outside is recorded in a `World`.  Standard input is the
list of its raw lines, read by a default `bufio.Scanner`, which gives up at a
line of 65536 bytes or more.
-/

namespace RsyncAgent

/-! ## Strings -/

/-- A Go `string` (or `[]byte`): a sequence of bytes. -/
abbrev GoString := List Nat

/-- The bytes of an ASCII string constant of the source. -/
def lit (s : String) : GoString := s.toList.map Char.toNat

/-- The rune `utf8.RuneError`, U+FFFD. -/
def RuneError : Nat := 0xFFFD

/-- Table `first` of package `unicode/utf8`: information about the first byte
of an encoding (`0xF0`: ASCII, `0xF1`: invalid, otherwise the accept-range index
in the high nibble and the size in the low one). -/
def first (b : Nat) : Nat :=
  if b < 0x80 then 0xF0
  else if b < 0xC2 then 0xF1
  else if b < 0xE0 then 0x02
  else if b = 0xE0 then 0x13
  else if b < 0xED then 0x03
  else if b = 0xED then 0x23
  else if b < 0xF0 then 0x03
  else if b = 0xF0 then 0x34
  else if b < 0xF4 then 0x04
  else if b = 0xF4 then 0x44
  else 0xF1

/-- Table `acceptRanges` of package `unicode/utf8`: the range allowed for the
second byte. -/
def acceptRanges (i : Nat) : Nat × Nat :=
  match i with
  | 0 => (0x80, 0xBF)
  | 1 => (0xA0, 0xBF)
  | 2 => (0x80, 0x9F)
  | 3 => (0x90, 0xBF)
  | 4 => (0x80, 0x8F)
  | _ => (0, 0)

/-- The function `utf8.DecodeRune`: the first rune of `p` and its width in bytes;
`(RuneError, 1)` for an invalid encoding, `(RuneError, 0)` for empty input.
Masks and shifts of the source are written with `%` and `*`. -/
def decodeRune (p : GoString) : Nat × Nat :=
  match p with
  | [] => (RuneError, 0)
  | p0 :: _ =>
    let x := first p0
    if x ≥ 0xF0 then (if x = 0xF0 then p0 else RuneError, 1)
    else
      let sz := x % 8
      let accept := acceptRanges (x / 16)
      if p.length < sz then (RuneError, 1)
      else
        let b1 := p.getD 1 0
        if b1 < accept.1 ∨ accept.2 < b1 then (RuneError, 1)
        else if sz ≤ 2 then ((p0 % 32) * 64 + b1 % 64, 2)
        else
          let b2 := p.getD 2 0
          if b2 < 0x80 ∨ 0xBF < b2 then (RuneError, 1)
          else if sz ≤ 3 then ((p0 % 16) * 4096 + (b1 % 64) * 64 + b2 % 64, 3)
          else
            let b3 := p.getD 3 0
            if b3 < 0x80 ∨ 0xBF < b3 then (RuneError, 1)
            else ((p0 % 8) * 262144 + (b1 % 64) * 4096 + (b2 % 64) * 64 + b3 % 64, 4)

/-- The function `utf8.EncodeRune`: the UTF-8 encoding of a rune; surrogates and values
above U+10FFFF are encoded as U+FFFD. -/
def encodeRune (r : Nat) : GoString :=
  if r ≤ 0x7F then [r]
  else if r ≤ 0x7FF then [0xC0 + r / 64, 0x80 + r % 64]
  else if r > 0x10FFFF ∨ (0xD800 ≤ r ∧ r ≤ 0xDFFF) then [0xEF, 0xBF, 0xBD]
  else if r ≤ 0xFFFF then [0xE0 + r / 4096, 0x80 + (r / 64) % 64, 0x80 + r % 64]
  else [0xF0 + r / 262144, 0x80 + (r / 4096) % 64, 0x80 + (r / 64) % 64, 0x80 + r % 64]

/-- The function `utf8.ValidString`, by the scan of `utf8.DecodeRune`: no position decodes
to `(RuneError, 1)`.  The first argument bounds the number of runes. -/
def validFrom : Nat → GoString → Bool
  | 0, s => s.isEmpty
  | fuel + 1, s =>
    match s with
    | [] => true
    | b :: rest =>
      if b < 0x80 then validFrom fuel rest
      else
        let d := decodeRune s
        if d.1 = RuneError ∧ d.2 = 1 then false
        else validFrom fuel (s.drop d.2)

/-- The function `utf8.ValidString`: whether the string is valid UTF-8. -/
def validString (s : GoString) : Bool := validFrom s.length s

/-! ## `json.Marshal` of the response types -/

/-- The digit `"0123456789abcdef"[n]`. -/
def hex (n : Nat) : Nat := if n < 10 then 48 + n else 87 + n

/-- Table `htmlSafeSet` of `encoding/json`: the ASCII bytes that need no escape
when HTML escaping is on (`json.Marshal` has it on). -/
def htmlSafeSet (b : Nat) : Bool :=
  decide (0x20 ≤ b ∧ b < 0x80 ∧ b ≠ 0x22 ∧ b ≠ 0x26 ∧ b ≠ 0x3C ∧ b ≠ 0x3E ∧ b ≠ 0x5C)

/-- The escape `appendString` writes for an ASCII byte outside `htmlSafeSet`.
Backspace and form feed have their short escapes, as written since Go 1.22;
earlier releases write them as `\u0008` and `\u000c`, which the decoder reads
as the same bytes. -/
def escapeByte (b : Nat) : GoString :=
  if b = 0x5C ∨ b = 0x22 then [0x5C, b]
  else if b = 0x08 then [0x5C, 0x62]
  else if b = 0x0C then [0x5C, 0x66]
  else if b = 0x0A then [0x5C, 0x6E]
  else if b = 0x0D then [0x5C, 0x72]
  else if b = 0x09 then [0x5C, 0x74]
  else [0x5C, 0x75, 0x30, 0x30, hex (b / 16), hex (b % 16)]

/-- The loop of `appendString` of `encoding/json` (what stands between the two
quotes).  Invalid UTF-8 is replaced by the escape of U+FFFD, and U+2028 and
U+2029 are escaped.  The first argument bounds the number of iterations. -/
def appendStringBody : Nat → GoString → GoString
  | 0, _ => []
  | fuel + 1, s =>
    match s with
    | [] => []
    | b :: rest =>
      if b < 0x80 then
        if htmlSafeSet b then b :: appendStringBody fuel rest
        else escapeByte b ++ appendStringBody fuel rest
      else
        let d := decodeRune (s.take 4)
        if d.1 = RuneError ∧ d.2 = 1 then
          [0x5C, 0x75, 0x66, 0x66, 0x66, 0x64] ++ appendStringBody fuel rest
        else if d.1 = 0x2028 ∨ d.1 = 0x2029 then
          [0x5C, 0x75, 0x32, 0x30, 0x32, hex (d.1 % 16)] ++ appendStringBody fuel (s.drop d.2)
        else s.take d.2 ++ appendStringBody fuel (s.drop d.2)

/-- The function `appendString` of `encoding/json`: a Go string as a JSON string literal. -/
def appendString (s : GoString) : GoString :=
  0x22 :: (appendStringBody s.length s ++ [0x22])

/-- The decimal digits of `n` in front of `acc`; the first argument bounds the
number of digits. -/
def formatBits : Nat → Nat → GoString → GoString
  | 0, _, acc => acc
  | fuel + 1, n, acc =>
    if n / 10 = 0 then (48 + n % 10) :: acc
    else formatBits fuel (n / 10) ((48 + n % 10) :: acc)

/-- The call `strconv.AppendInt(_, n, 10)`: a minus sign for a negative number,
then the decimal digits. -/
def formatInt (n : Int) : GoString :=
  if n < 0 then 0x2D :: formatBits (n.natAbs + 1) n.natAbs []
  else formatBits (n.natAbs + 1) n.natAbs []

/-- The source's `operationError`. -/
structure operationError where
  Code : Int
  Message : GoString
  deriving DecidableEq, Repr

/-- The source's `initResponse`; `Error` is a pointer, `none` when nil. -/
structure initResponse where
  Error : Option operationError
  deriving DecidableEq, Repr

/-- The source's `transferResponse`. -/
structure transferResponse where
  Event : GoString
  Oid : GoString
  Path : GoString
  Error : Option operationError
  deriving DecidableEq, Repr

/-- The source's `progressResponse`. -/
structure progressResponse where
  Event : GoString
  Oid : GoString
  BytesSoFar : Int
  BytesSinceLast : Int
  deriving DecidableEq, Repr

/-- The value handed to `sendResponse` (an `interface{}` in the source). -/
inductive response where
  | init (r : initResponse)
  | transfer (r : transferResponse)
  | progress (r : progressResponse)
  deriving DecidableEq, Repr

/-- The struct encoder of `encoding/json` (`structEncoder.encode`) on the fields
of a struct, each with its JSON name and its encoded value, `none` for a field
left out by `omitempty`.  `next` is the byte written before the next member: the
opening brace at first, a comma afterwards. -/
def encodeFields : Nat → List (GoString × Option GoString) → GoString
  | next, [] => if next = 0x7B then [0x7B, 0x7D] else [0x7D]
  | next, (_, none) :: rest => encodeFields next rest
  | next, (name, some v) :: rest =>
    next :: 0x22 :: (name ++ 0x22 :: 0x3A :: (v ++ encodeFields 0x2C rest))

/-- The encoding `json.Marshal` of an `operationError`. -/
def marshalError (e : operationError) : GoString :=
  encodeFields 0x7B
    [(lit "code", some (formatInt e.Code)), (lit "message", some (appendString e.Message))]

/-- The encoding `json.Marshal` of an `initResponse`; `error` is left out when nil
(`omitempty`). -/
def marshalInit (r : initResponse) : GoString :=
  encodeFields 0x7B [(lit "error", r.Error.map marshalError)]

/-- The encoding `json.Marshal` of a `transferResponse`; `path` is left out when empty and
`error` when nil (`omitempty`). -/
def marshalTransfer (r : transferResponse) : GoString :=
  encodeFields 0x7B
    [(lit "event", some (appendString r.Event)), (lit "oid", some (appendString r.Oid)),
     (lit "path", if r.Path = [] then none else some (appendString r.Path)),
     (lit "error", r.Error.map marshalError)]

/-- The encoding `json.Marshal` of a `progressResponse`. -/
def marshalProgress (r : progressResponse) : GoString :=
  encodeFields 0x7B
    [(lit "event", some (appendString r.Event)), (lit "oid", some (appendString r.Oid)),
     (lit "bytesSoFar", some (formatInt r.BytesSoFar)),
     (lit "bytesSinceLast", some (formatInt r.BytesSinceLast))]

/-- The call `json.Marshal(r)`.  It returns no error on these types: they hold strings,
integers and a pointer to a struct of a string and an integer. -/
def marshal : response → GoString
  | .init r => marshalInit r
  | .transfer r => marshalTransfer r
  | .progress r => marshalProgress r

/-! ## Requests, environment and state -/

/-- The source's `action`.  `ExpiresAt` is a `time.Time`, kept as the instant
in nanoseconds counted from the zero `time.Time`. -/
structure action where
  Href : GoString
  Header : List (GoString × GoString)
  ExpiresAt : Int
  deriving DecidableEq, Repr

/-- The source's combined `request` struct; `Action` is a pointer, `none` when
nil. -/
structure request where
  Event : GoString
  Operation : GoString
  Concurrent : Bool
  ConcurrentTransfers : Int
  Oid : GoString
  Size : Int
  Path : GoString
  Action : Option action
  deriving DecidableEq, Repr

/-- What the process gets from outside.  Calls of one kind are numbered from 0
in the order the program makes them. -/
structure Env where
  /-- The value `os.Args`: the program name, then the launch arguments. -/
  args : List GoString
  /-- The call `json.Unmarshal([]byte(line), &req)` on a zero `req`: the filled
  request, or `none` when it returns an error. -/
  unmarshal : GoString → Option request
  /-- The `k`-th call `ioutil.TempFile("", "rsync-agent")`: the name of the
  file made, or the text of the error. -/
  tempFile : Nat → Except GoString GoString
  /-- The `k`-th run `exec.Command("rsync", args...).CombinedOutput()`: the
  captured output and, when the run failed, the text of the error. -/
  exec : Nat → List GoString → GoString × Option GoString
  /-- The `k`-th call `writer.Write(b)` on standard output: `none` when it
  returns no error, otherwise the text of the error. -/
  write : Nat → GoString → Option GoString

/-- The state of the process and the record of what it did. -/
structure World where
  /-- The package variable `remote`. -/
  remote : GoString
  /-- The response lines `writer.Write` accepted, oldest first; each is
  followed by `writer.Flush()`, whose result the source drops. -/
  out : List GoString
  /-- The messages written to standard error, oldest first. -/
  err : List GoString
  /-- The argument lists of the runs of `rsync`, oldest first. -/
  calls : List (List GoString)
  /-- How many times `ioutil.TempFile` was called. -/
  temps : Nat
  /-- How many times `writer.Write` was called on standard output. -/
  writes : Nat
  deriving DecidableEq, Repr

/-- The state at process start: `remote` is the zero string, nothing was
written and nothing was run. -/
def World.start : World :=
  { remote := [], out := [], err := [], calls := [], temps := 0, writes := 0 }

/-! ## The program -/

/-- The source's `writeToStderr`. -/
def writeToStderr (msg : GoString) (w : World) : World :=
  let msg := if [0x0A].isSuffixOf msg then msg else msg ++ [0x0A]
  { w with err := w.err ++ [msg] }

/-- The source's `sendResponse`: the new state and the error returned (`none`
for nil). -/
def sendResponse (env : Env) (r : response) (w : World) : World × Option GoString :=
  let b := marshal r ++ [0x0A]
  let w1 := { w with writes := w.writes + 1 }
  match env.write w.writes b with
  | some e => (w1, some e)
  | none => (writeToStderr (lit "Sent message " ++ b) { w1 with out := w1.out ++ [b] }, none)

/-- The source's `sendTransferError`. -/
def sendTransferError (env : Env) (oid : GoString) (code : Int) (message : GoString)
    (w : World) : World :=
  let resp : transferResponse := ⟨lit "complete", oid, [], some ⟨code, message⟩⟩
  match sendResponse env (.transfer resp) w with
  | (w1, some e) => writeToStderr (lit "Unable to send transfer error: " ++ e ++ [0x0A]) w1
  | (w1, none) => w1

/-- The source's `sendProgress`. -/
def sendProgress (env : Env) (oid : GoString) (bytesSoFar : Int) (bytesSinceLast : Int)
    (w : World) : World :=
  let resp : progressResponse := ⟨lit "progress", oid, bytesSoFar, bytesSinceLast⟩
  match sendResponse env (.progress resp) w with
  | (w1, some e) => writeToStderr (lit "Unable to send progress update: " ++ e ++ [0x0A]) w1
  | (w1, none) => w1

/-- The source's `initAgent`; `none` is the run-time panic of `os.Args[1]` when
`os.Args` has no index 1. -/
def initAgent (env : Env) (w : World) : Option World :=
  match env.args[1]? with
  | none => none
  | some a =>
    let w1 := { w with remote := a }
    if w1.remote = [] then
      let resp : initResponse :=
        ⟨some ⟨3, lit "No remote specified when launching the process"⟩⟩
      some (sendResponse env (.init resp) w1).1
    else
      let resp : initResponse := ⟨none⟩
      some (sendResponse env (.init resp) w1).1

/-- The source's `remoteFile`: `fmt.Sprintf("%s/%s", remote, oid)`. -/
def remoteFile (w : World) (oid : GoString) : GoString :=
  w.remote ++ lit "/" ++ oid

/-- The format `%s` of a `[]string`: the elements between brackets, separated
by a space. -/
def formatArgs (args : List GoString) : GoString :=
  lit "[" ++ List.intercalate (lit " ") args ++ lit "]"

/-- The text of ``fmt.Errorf("Error while running `rsync %s`: %v\n%s", args, err, out)``. -/
def rsyncError (args : List GoString) (e out : GoString) : GoString :=
  lit "Error while running `rsync " ++ formatArgs args ++ lit "`: " ++ e ++ [0x0A] ++ out

/-- The source's `rsync`: the run is recorded, and a failed run gives the error
built by `fmt.Errorf`. -/
def rsync (env : Env) (args : List GoString) (w : World) : World × Option GoString :=
  let w1 := { w with calls := w.calls ++ [args] }
  match env.exec w.calls.length args with
  | (_, none) => (w1, none)
  | (out, some e) => (w1, some (rsyncError args e out))

/-- The source's `performDownload`.  The deferred `dlFile.Close()` has no effect
on what is recorded here. -/
def performDownload (env : Env) (oid : GoString) (size : Int) (a : Option action)
    (w : World) : World :=
  let w1 := { w with temps := w.temps + 1 }
  match env.tempFile w.temps with
  | .error e => sendTransferError env oid 3 e w1
  | .ok dlfilename =>
    match rsync env [remoteFile w1 oid, dlfilename] w1 with
    | (w2, some e) => sendTransferError env oid 4 e w2
    | (w2, none) =>
      let complete : transferResponse := ⟨lit "complete", oid, dlfilename, none⟩
      match sendResponse env (.transfer complete) w2 with
      | (w3, some e) =>
        writeToStderr (lit "Unable to send completion message: " ++ e ++ [0x0A]) w3
      | (w3, none) => w3

/-- The source's `performUpload`. -/
def performUpload (env : Env) (oid : GoString) (size : Int) (a : Option action)
    (fromPath : GoString) (w : World) : World :=
  match rsync env [fromPath, remoteFile w oid] w with
  | (w1, some e) => sendTransferError env oid 5 e w1
  | (w1, none) =>
    let complete : transferResponse := ⟨lit "complete", oid, [], none⟩
    match sendResponse env (.transfer complete) w1 with
    | (w2, some e) =>
      writeToStderr (lit "Unable to send completion message: " ++ e ++ [0x0A]) w2
    | (w2, none) => w2

/-- The body of the loop of `main` for one line of standard input; `none` is a
run-time panic. -/
def handleLine (env : Env) (line : GoString) (w : World) : Option World :=
  match env.unmarshal line with
  | none => some (writeToStderr (lit "Unable to parse request: " ++ line ++ [0x0A]) w)
  | some req =>
    if req.Event = lit "init" then
      initAgent env
        (writeToStderr (lit "Initialising rsync agent for: " ++ req.Operation ++ [0x0A]) w)
    else if req.Event = lit "download" then
      some (performDownload env req.Oid req.Size req.Action
        (writeToStderr (lit "Received download request for: " ++ req.Oid ++ [0x0A]) w))
    else if req.Event = lit "upload" then
      some (performUpload env req.Oid req.Size req.Action req.Path
        (writeToStderr (lit "Received upload request for: " ++ req.Oid ++ [0x0A]) w))
    else if req.Event = lit "terminate" then
      some (writeToStderr (lit "Terminating rsync agent gracefully.\n") w)
    else some w

/-- The constant `bufio.MaxScanTokenSize`: the size the buffer of a default
`bufio.Scanner` grows to. -/
def maxScanTokenSize : Nat := 64 * 1024

/-- The function `dropCR` of package `bufio`: the line without one trailing
carriage return.  `scanner.Text()` is `dropCR` of the bytes before the
newline. -/
def dropCR (data : GoString) : GoString :=
  if data.getLast? = some 0x0D then data.dropLast else data

/-- The source's `main`: the loop `for scanner.Scan()` from state `w`, over the
raw lines of standard input (the bytes between newlines, carriage return
included), read by a default `bufio.Scanner` with the split function
`ScanLines`.  A line of `maxScanTokenSize` bytes or more fills the buffer of
the scanner before its newline is seen: `Scan` returns false, and since the
source does not look at `scanner.Err()` the loop just ends there.  `none` is a
run-time panic. -/
def main (env : Env) : List GoString → World → Option World
  | [], w => some w
  | raw :: rest, w =>
    if raw.length ≥ maxScanTokenSize then some w
    else
      match handleLine env (dropCR raw) w with
      | none => none
      | some w1 => main env rest w1

/-! ## Observations -/

/-- The state without its diagnostics. -/
def World.quiet (w : World) : World := { w with err := [] }

/-- Whether the line is a request whose event is `name`. -/
def hasEvent (env : Env) (name : GoString) (line : GoString) : Bool :=
  match env.unmarshal line with
  | some req => decide (req.Event = name)
  | none => false

/-- Whether the raw line of standard input is read by the scanner (it is
shorter than `maxScanTokenSize`) and is a request whose event is `name`. -/
def isRequest (env : Env) (name : GoString) (raw : GoString) : Bool :=
  decide (raw.length < maxScanTokenSize) && hasEvent env name (dropCR raw)

/-! ## `json.Unmarshal` -/

/-- A JSON text that the scanner of `encoding/json` accepted, as a tree.  A
string is kept as written between its quotes (escapes included) and a number as
its digits: the decoder turns them into values when it stores them. -/
inductive JSON where
  | null
  | bool (b : Bool)
  | num (text : GoString)
  | str (raw : GoString)
  | arr (xs : List JSON)
  | obj (ms : List (GoString × JSON))
  deriving Repr

/-- The scanner's `isSpace`. -/
def isSpace (c : Nat) : Bool := c = 0x20 ∨ c = 0x09 ∨ c = 0x0D ∨ c = 0x0A

/-- The input without its leading white space. -/
def skipSpace : GoString → GoString
  | [] => []
  | c :: rest => if isSpace c then skipSpace rest else c :: rest

/-- A decimal digit. -/
def isDigit (c : Nat) : Bool := 0x30 ≤ c ∧ c ≤ 0x39

/-- A hexadecimal digit, as the scanner accepts after `\u`. -/
def isHex (c : Nat) : Bool :=
  (0x30 ≤ c ∧ c ≤ 0x39) ∨ (0x61 ≤ c ∧ c ≤ 0x66) ∨ (0x41 ≤ c ∧ c ≤ 0x46)

/-- The scanner inside a string literal (states `stateInString`,
`stateInStringEsc`, `stateInStringEscU...`): the text up to the closing quote
and what follows that quote.  A control character, an unknown escape and an
unfinished literal are errors. -/
def scanString : GoString → Option (GoString × GoString)
  | [] => none
  | c :: rest =>
    if c = 0x22 then some ([], rest)
    else if c = 0x5C then
      match rest with
      | [] => none
      | e :: rest1 =>
        if e = 0x62 ∨ e = 0x66 ∨ e = 0x6E ∨ e = 0x72 ∨ e = 0x74 ∨ e = 0x5C ∨ e = 0x2F
            ∨ e = 0x22 then
          (scanString rest1).map (fun r => (c :: e :: r.1, r.2))
        else if e = 0x75 then
          match rest1 with
          | h1 :: h2 :: h3 :: h4 :: rest2 =>
            if isHex h1 ∧ isHex h2 ∧ isHex h3 ∧ isHex h4 then
              (scanString rest2).map (fun r => (c :: e :: h1 :: h2 :: h3 :: h4 :: r.1, r.2))
            else none
          | _ => none
        else none
    else if c < 0x20 then none
    else (scanString rest).map (fun r => (c :: r.1, r.2))

/-- The leading decimal digits of the input, and the rest. -/
def spanDigits : GoString → GoString × GoString
  | [] => ([], [])
  | c :: rest =>
    if isDigit c then ((spanDigits rest).1.cons c, (spanDigits rest).2) else ([], c :: rest)

/-- The scanner after the integer part and the fraction of a number (states
`stateE`, `stateESign`, `stateE0`): an optional exponent.  `acc` is the text of
the number so far; the result is the text of the number and the rest. -/
def scanExponent (acc : GoString) (s : GoString) : Option (GoString × GoString) :=
  match s with
  | [] => some (acc, [])
  | c :: r =>
    if c = 0x65 ∨ c = 0x45 then
      match r with
      | [] => none
      | d :: r1 =>
        let sg : GoString × GoString := if d = 0x2B ∨ d = 0x2D then ([d], r1) else ([], r)
        if (spanDigits sg.2).1 = [] then none
        else some (acc ++ c :: sg.1 ++ (spanDigits sg.2).1, (spanDigits sg.2).2)
    else some (acc, s)

/-- The scanner after the integer part of a number (states `stateDot`,
`stateDot0`): an optional fraction, then an optional exponent. -/
def scanFraction (acc : GoString) (s : GoString) : Option (GoString × GoString) :=
  match s with
  | [] => some (acc, [])
  | c :: r =>
    if c = 0x2E then
      if (spanDigits r).1 = [] then none
      else scanExponent (acc ++ c :: (spanDigits r).1) (spanDigits r).2
    else scanExponent acc s

/-- The scanner on a number (states `stateNeg`, `state0`, `state1` and the
ones above): an optional minus sign, `0` or a digit from 1 to 9 followed by
digits, then fraction and exponent.  The result is the text of the number and
the rest of the input. -/
def scanNumber (s : GoString) : Option (GoString × GoString) :=
  let sign : GoString := if s.head? = some 0x2D then [0x2D] else []
  match (if s.head? = some 0x2D then s.drop 1 else s) with
  | [] => none
  | c :: r =>
    if c = 0x30 then scanFraction (sign ++ [c]) r
    else if isDigit c then scanFraction (sign ++ c :: (spanDigits r).1) (spanDigits r).2
    else none

/-- The scanner's `maxNestingDepth`. -/
def maxNestingDepth : Nat := 10000

mutual

/-- One JSON value at the head of the input (no leading white space), and the
rest of the input.  `depth` is the number of open objects and arrays; the first
argument bounds the number of values read. -/
def parseValue : Nat → Nat → GoString → Option (JSON × GoString)
  | 0, _, _ => none
  | fuel + 1, depth, s =>
    match s with
    | [] => none
    | c :: rest =>
      if c = 0x7B then
        if depth ≥ maxNestingDepth then none
        else
          match skipSpace rest with
          | [] => none
          | d :: rest1 =>
            if d = 0x7D then some (.obj [], rest1)
            else (parseMembers fuel (depth + 1) (d :: rest1)).map (fun r => (.obj r.1, r.2))
      else if c = 0x5B then
        if depth ≥ maxNestingDepth then none
        else
          match skipSpace rest with
          | [] => none
          | d :: rest1 =>
            if d = 0x5D then some (.arr [], rest1)
            else (parseElements fuel (depth + 1) (d :: rest1)).map (fun r => (.arr r.1, r.2))
      else if c = 0x22 then (scanString rest).map (fun r => (.str r.1, r.2))
      else if c = 0x2D ∨ isDigit c then (scanNumber s).map (fun r => (.num r.1, r.2))
      else if s.take 4 = [0x74, 0x72, 0x75, 0x65] then some (.bool true, s.drop 4)
      else if s.take 5 = [0x66, 0x61, 0x6C, 0x73, 0x65] then some (.bool false, s.drop 5)
      else if s.take 4 = [0x6E, 0x75, 0x6C, 0x6C] then some (.null, s.drop 4)
      else none

/-- The members of an object after its opening brace, up to and including the
closing brace; the input starts at the first key. -/
def parseMembers : Nat → Nat → GoString → Option (List (GoString × JSON) × GoString)
  | 0, _, _ => none
  | fuel + 1, depth, s =>
    match s with
    | [] => none
    | q :: r =>
      if q = 0x22 then
        match scanString r with
        | none => none
        | some (key, r1) =>
          match skipSpace r1 with
          | [] => none
          | c :: r2 =>
            if c = 0x3A then
              match parseValue fuel depth (skipSpace r2) with
              | none => none
              | some (v, r3) =>
                match skipSpace r3 with
                | [] => none
                | d :: r4 =>
                  if d = 0x2C then
                    (parseMembers fuel depth (skipSpace r4)).map
                      (fun m => ((key, v) :: m.1, m.2))
                  else if d = 0x7D then some ([(key, v)], r4)
                  else none
            else none
      else none

/-- The elements of an array after its opening bracket, up to and including
the closing bracket; the input starts at the first element. -/
def parseElements : Nat → Nat → GoString → Option (List JSON × GoString)
  | 0, _, _ => none
  | fuel + 1, depth, s =>
    match parseValue fuel depth s with
    | none => none
    | some (v, r1) =>
      match skipSpace r1 with
      | [] => none
      | d :: r2 =>
        if d = 0x2C then
          (parseElements fuel depth (skipSpace r2)).map (fun m => (v :: m.1, m.2))
        else if d = 0x5D then some ([v], r2)
        else none

end

/-- The scanner over a whole text (`checkValid`): one value between optional
white space, as a tree; `none` for a syntax error.  Every value read takes at
least one byte, so the bound is never the reason for `none`. -/
def parseJSON (data : GoString) : Option JSON :=
  match parseValue (data.length + 1) 0 (skipSpace data) with
  | none => none
  | some (v, rest) => if skipSpace rest = [] then some v else none

/-- The value of a hexadecimal digit. -/
def hexVal (c : Nat) : Nat :=
  if c ≤ 0x39 then c - 0x30 else if 0x61 ≤ c then c - 0x61 + 10 else c - 0x41 + 10

/-- The decoder's `getu4`: the number written by an escape `\uXXXX` at the head
of the input; `none` where the source returns -1. -/
def getu4 (s : GoString) : Option Nat :=
  match s with
  | b :: u :: h1 :: h2 :: h3 :: h4 :: _ =>
    if b = 0x5C ∧ u = 0x75 ∧ isHex h1 ∧ isHex h2 ∧ isHex h3 ∧ isHex h4 then
      some (((hexVal h1 * 16 + hexVal h2) * 16 + hexVal h3) * 16 + hexVal h4)
    else none
  | _ => none

/-- The loop of the decoder's `unquoteBytes` on the text between the quotes of
a literal: escapes are replaced and invalid UTF-8 becomes U+FFFD.  (The source
first skips the bytes that need no change; that is the same loop.)  The first
argument bounds the number of iterations. -/
def unquoteBody : Nat → GoString → Option GoString
  | 0, s => if s = [] then some [] else none
  | fuel + 1, s =>
    match s with
    | [] => some []
    | c :: rest =>
      if c = 0x5C then
        match rest with
        | [] => none
        | e :: rest1 =>
          if e = 0x22 ∨ e = 0x5C ∨ e = 0x2F ∨ e = 0x27 then
            (unquoteBody fuel rest1).map (fun t => e :: t)
          else if e = 0x62 then (unquoteBody fuel rest1).map (fun t => 0x08 :: t)
          else if e = 0x66 then (unquoteBody fuel rest1).map (fun t => 0x0C :: t)
          else if e = 0x6E then (unquoteBody fuel rest1).map (fun t => 0x0A :: t)
          else if e = 0x72 then (unquoteBody fuel rest1).map (fun t => 0x0D :: t)
          else if e = 0x74 then (unquoteBody fuel rest1).map (fun t => 0x09 :: t)
          else if e = 0x75 then
            match getu4 s with
            | none => none
            | some rr =>
              if 0xD800 ≤ rr ∧ rr < 0xE000 then
                match getu4 (s.drop 6) with
                | none => (unquoteBody fuel (s.drop 6)).map (fun t => encodeRune RuneError ++ t)
                | some rr1 =>
                  if rr < 0xDC00 ∧ 0xDC00 ≤ rr1 ∧ rr1 < 0xE000 then
                    (unquoteBody fuel (s.drop 12)).map
                      (fun t => encodeRune ((rr - 0xD800) * 1024 + (rr1 - 0xDC00) + 0x10000) ++ t)
                  else (unquoteBody fuel (s.drop 6)).map (fun t => encodeRune RuneError ++ t)
              else (unquoteBody fuel (s.drop 6)).map (fun t => encodeRune rr ++ t)
          else none
      else if c = 0x22 ∨ c < 0x20 then none
      else if c < 0x80 then (unquoteBody fuel rest).map (fun t => c :: t)
      else
        (unquoteBody fuel (s.drop (decodeRune s).2)).map
          (fun t => encodeRune (decodeRune s).1 ++ t)

/-- The decoder's `unquoteBytes`, on the text between the quotes. -/
def unquote (raw : GoString) : Option GoString := unquoteBody raw.length raw

/-- The digits of a decimal number as a natural number. -/
def digitsValue (ds : GoString) : Nat := ds.foldl (fun a d => 10 * a + (d - 0x30)) 0

/-- The call `strconv.ParseInt(text, 10, 64)`: an optional sign and decimal digits, in
the range of `int64`; `none` stands for an error. -/
def parseInt64 (text : GoString) : Option Int :=
  let neg : Bool := decide (text.head? = some 0x2D)
  let ds : GoString :=
    if text.head? = some 0x2D ∨ text.head? = some 0x2B then text.drop 1 else text
  if ds = [] ∨ ¬ ds.all isDigit then none
  else if neg then
    if digitsValue ds ≤ 2 ^ 63 then some (- (digitsValue ds : Int)) else none
  else if digitsValue ds < 2 ^ 63 then some (digitsValue ds : Int) else none

/-- The decoder's `foldName`, for the comparison with an ASCII field name:
ASCII letters go to upper case and the two runes that fold to an ASCII letter,
U+017F and U+212A, go to `S` and `K`.  Other runes are re-encoded as they are
(the source replaces them by the least rune of their fold orbit, which is no
ASCII letter either). -/
def foldName : Nat → GoString → GoString
  | 0, _ => []
  | fuel + 1, s =>
    match s with
    | [] => []
    | c :: rest =>
      if c < 0x80 then
        (if 0x61 ≤ c ∧ c ≤ 0x7A then c - 0x20 else c) :: foldName fuel rest
      else
        let d := decodeRune s
        (if d.1 = 0x17F then [0x53] else if d.1 = 0x212A then [0x4B] else encodeRune d.1)
          ++ foldName fuel (s.drop d.2)

/-- Whether the key of an object member, as written between its quotes, names
the struct field with JSON name `name` (exactly or up to case). -/
def keyIs (name : GoString) (key : GoString) : Bool :=
  match unquote key with
  | none => false
  | some k => decide (k = name) || decide (foldName k.length k = foldName name.length name)

/-- The decoder storing a JSON value into a `string`: a string is unquoted,
`null` leaves the field as it is, any other value is an `UnmarshalTypeError`
(`none`). -/
def storeString (cur : GoString) (v : JSON) : Option GoString :=
  match v with
  | .str raw => unquote raw
  | .null => some cur
  | _ => none

/-- The decoder storing a JSON value into an `int` or `int64` (64 bits wide):
the number must be accepted by `strconv.ParseInt`. -/
def storeInt (cur : Int) (v : JSON) : Option Int :=
  match v with
  | .num text => parseInt64 text
  | .null => some cur
  | _ => none

/-- The decoder filling a struct from the members of an object, first to last.
Any error makes `json.Unmarshal` return an error (`none`). -/
def decodeMembers {α : Type} (set : α → GoString → JSON → Option α) :
    α → List (GoString × JSON) → Option α
  | cur, [] => some cur
  | cur, (key, v) :: rest =>
    match set cur key v with
    | none => none
    | some next => decodeMembers set next rest

/-- One member decoded into an `operationError`. -/
def setErrorField (e : operationError) (key : GoString) (v : JSON) : Option operationError :=
  if keyIs (lit "code") key then (storeInt e.Code v).map (fun c => { e with Code := c })
  else if keyIs (lit "message") key then
    (storeString e.Message v).map (fun m => { e with Message := m })
  else some e

/-- The decoder storing a JSON value into a `*operationError`: `null` makes the
pointer nil, an object is decoded into the struct pointed to (a new zero one
when the pointer is nil). -/
def storeError (cur : Option operationError) (v : JSON) : Option (Option operationError) :=
  match v with
  | .null => some none
  | .obj ms => (decodeMembers setErrorField (cur.getD ⟨0, []⟩) ms).map some
  | _ => none

/-- One member decoded into an `initResponse`. -/
def setInitField (r : initResponse) (key : GoString) (v : JSON) : Option initResponse :=
  if keyIs (lit "error") key then (storeError r.Error v).map (fun e => { r with Error := e })
  else some r

/-- One member decoded into a `transferResponse`. -/
def setTransferField (r : transferResponse) (key : GoString) (v : JSON) :
    Option transferResponse :=
  if keyIs (lit "event") key then (storeString r.Event v).map (fun x => { r with Event := x })
  else if keyIs (lit "oid") key then (storeString r.Oid v).map (fun x => { r with Oid := x })
  else if keyIs (lit "path") key then (storeString r.Path v).map (fun x => { r with Path := x })
  else if keyIs (lit "error") key then
    (storeError r.Error v).map (fun e => { r with Error := e })
  else some r

/-- One member decoded into a `progressResponse`. -/
def setProgressField (r : progressResponse) (key : GoString) (v : JSON) :
    Option progressResponse :=
  if keyIs (lit "event") key then (storeString r.Event v).map (fun x => { r with Event := x })
  else if keyIs (lit "oid") key then (storeString r.Oid v).map (fun x => { r with Oid := x })
  else if keyIs (lit "bytesSoFar") key then
    (storeInt r.BytesSoFar v).map (fun x => { r with BytesSoFar := x })
  else if keyIs (lit "bytesSinceLast") key then
    (storeInt r.BytesSinceLast v).map (fun x => { r with BytesSinceLast := x })
  else some r

/-- The call `json.Unmarshal(data, &v)` for a struct `v` with value `zero`: the text
must be valid JSON; an object is decoded member by member, `null` changes
nothing, any other value is an error. -/
def unmarshalStruct {α : Type} (set : α → GoString → JSON → Option α) (zero : α)
    (data : GoString) : Option α :=
  match parseJSON data with
  | some (.obj ms) => decodeMembers set zero ms
  | some .null => some zero
  | _ => none

/-- The call `json.Unmarshal` into a zero `initResponse`. -/
def unmarshalInit (data : GoString) : Option initResponse :=
  unmarshalStruct setInitField ⟨none⟩ data

/-- The call `json.Unmarshal` into a zero `transferResponse`. -/
def unmarshalTransfer (data : GoString) : Option transferResponse :=
  unmarshalStruct setTransferField ⟨[], [], [], none⟩ data

/-- The call `json.Unmarshal` into a zero `progressResponse`. -/
def unmarshalProgress (data : GoString) : Option progressResponse :=
  unmarshalStruct setProgressField ⟨[], [], 0, 0⟩ data

/-! ## `json.Unmarshal` of a request line -/

/-- The decoder storing a JSON value into a `bool`. -/
def storeBool (cur : Bool) (v : JSON) : Option Bool :=
  match v with
  | .bool b => some b
  | .null => some cur
  | _ => none

/-- A map with `key` set to `val`. -/
def mapSet (m : List (GoString × GoString)) (key val : GoString) : List (GoString × GoString) :=
  match m with
  | [] => [(key, val)]
  | (k, x) :: rest => if k = key then (k, val) :: rest else (k, x) :: mapSet rest key val

/-- One member decoded into a `map[string]string`: the element starts as the
empty string, so `null` stores the empty string. -/
def setHeaderEntry (m : List (GoString × GoString)) (key : GoString) (v : JSON) :
    Option (List (GoString × GoString)) :=
  match unquote key, storeString [] v with
  | some k, some s => some (mapSet m k s)
  | _, _ => none

/-- The decoder storing a JSON value into a `map[string]string`: `null` makes
the map nil. -/
def storeHeader (cur : List (GoString × GoString)) (v : JSON) :
    Option (List (GoString × GoString)) :=
  match v with
  | .null => some []
  | .obj ms => decodeMembers setHeaderEntry cur ms
  | _ => none

/-- The decoder handing a JSON value to `(*time.Time).UnmarshalJSON`: `null`
changes nothing, a string is parsed as written between its quotes by
`parseTime` (the RFC 3339 parser of package `time`, which is not modelled),
any other value is an error. -/
def storeTime (parseTime : GoString → Option Int) (cur : Int) (v : JSON) : Option Int :=
  match v with
  | .null => some cur
  | .str raw => parseTime raw
  | _ => none

/-- One member decoded into an `action`. -/
def setActionField (parseTime : GoString → Option Int) (a : action) (key : GoString)
    (v : JSON) : Option action :=
  if keyIs (lit "href") key then (storeString a.Href v).map (fun x => { a with Href := x })
  else if keyIs (lit "header") key then
    (storeHeader a.Header v).map (fun x => { a with Header := x })
  else if keyIs (lit "expires_at") key then
    (storeTime parseTime a.ExpiresAt v).map (fun x => { a with ExpiresAt := x })
  else some a

/-- The decoder storing a JSON value into a `*action`. -/
def storeAction (parseTime : GoString → Option Int) (cur : Option action) (v : JSON) :
    Option (Option action) :=
  match v with
  | .null => some none
  | .obj ms => (decodeMembers (setActionField parseTime) (cur.getD ⟨[], [], 0⟩) ms).map some
  | _ => none

/-- One member decoded into a `request`. -/
def setRequestField (parseTime : GoString → Option Int) (r : request) (key : GoString)
    (v : JSON) : Option request :=
  if keyIs (lit "event") key then (storeString r.Event v).map (fun x => { r with Event := x })
  else if keyIs (lit "operation") key then
    (storeString r.Operation v).map (fun x => { r with Operation := x })
  else if keyIs (lit "concurrent") key then
    (storeBool r.Concurrent v).map (fun x => { r with Concurrent := x })
  else if keyIs (lit "concurrenttransfers") key then
    (storeInt r.ConcurrentTransfers v).map (fun x => { r with ConcurrentTransfers := x })
  else if keyIs (lit "oid") key then (storeString r.Oid v).map (fun x => { r with Oid := x })
  else if keyIs (lit "size") key then (storeInt r.Size v).map (fun x => { r with Size := x })
  else if keyIs (lit "path") key then (storeString r.Path v).map (fun x => { r with Path := x })
  else if keyIs (lit "action") key then
    (storeAction parseTime r.Action v).map (fun x => { r with Action := x })
  else some r

/-- The call `json.Unmarshal([]byte(line), &req)` on a zero `req`, given the parser of
timestamps. -/
def unmarshalRequest (parseTime : GoString → Option Int) (line : GoString) : Option request :=
  unmarshalStruct (setRequestField parseTime) ⟨[], [], false, 0, [], 0, [], none⟩ line

/-! ## Example runs -/

/-- A launch `git-lfs-rsync-agent /backup/lfs` in which temporary files are
made, rsync succeeds without output and standard output takes every line.  No
line of the examples has a timestamp, and the parser of timestamps here accepts
none. -/
def exampleEnv : Env where
  args := [lit "git-lfs-rsync-agent", lit "/backup/lfs"]
  unmarshal := unmarshalRequest (fun _ => none)
  tempFile := fun k => .ok (lit "/tmp/rsync-agent" ++ formatInt k)
  exec := fun _ _ => ([], none)
  write := fun _ _ => none

/-- The launch of `exampleEnv` with a remote that rsync cannot reach: every run
fails with exit status 10 and the output `connection refused`. -/
def refusedEnv : Env :=
  { exampleEnv with exec := fun _ _ => (lit "connection refused", some (lit "exit status 10")) }

/-- The launch of `exampleEnv` where rsync fails and prints the single byte
`0xFF`, which is not valid UTF-8. -/
def latin1Env : Env :=
  { exampleEnv with exec := fun _ _ => ([0xFF], some (lit "exit status 23")) }

/-- A launch without any argument: `os.Args` holds the program name only. -/
def noArgEnv : Env := { exampleEnv with args := [lit "git-lfs-rsync-agent"] }

/-- A launch with the empty string as its argument. -/
def emptyArgEnv : Env := { exampleEnv with args := [lit "git-lfs-rsync-agent", []] }

/-- The launch of `exampleEnv` with standard output on a full device: the
first `Write` is taken into the buffer of the writer, the flush after it fails,
and every later `Write` returns that error. -/
def fullEnv : Env :=
  { exampleEnv with
    write := fun k _ =>
      if k = 0 then none else some (lit "write /dev/stdout: no space left on device") }

/-- The init request line of the protocol. -/
def initLine : GoString := lit "\x7b\"event\":\"init\",\"operation\":\"download\"\x7d"

/-- A download request line. -/
def downloadLine : GoString :=
  lit "\x7b\"event\":\"download\",\"oid\":\"abc123\",\"size\":10\x7d"

/-- An upload request line. -/
def uploadLine : GoString :=
  lit "\x7b\"event\":\"upload\",\"oid\":\"abc123\",\"size\":10,\"path\":\"/tmp/obj\"\x7d"

/-- The terminate request line. -/
def terminateLine : GoString := lit "\x7b\"event\":\"terminate\"\x7d"

/-- A line that is not JSON. -/
def badLine : GoString := lit "not json"

/-- A line that is not JSON and is as long as the buffer of the scanner: 65536
times the letter `x`. -/
def longLine : GoString := List.replicate 65536 0x78

/-- The range of `int64`, and of `int` on a 64-bit platform. -/
def inInt64 (n : Int) : Bool := decide (-(2 : Int) ^ 63 ≤ n ∧ n < (2 : Int) ^ 63)

/-- An `operationError` whose message is valid UTF-8 (and whose code is in the
range of its type). -/
def operationError.clean (e : operationError) : Bool :=
  inInt64 e.Code && validString e.Message

/-- An `initResponse` whose strings are valid UTF-8. -/
def initResponse.clean (r : initResponse) : Bool :=
  match r.Error with
  | none => true
  | some e => e.clean

/-- A `transferResponse` whose strings are valid UTF-8. -/
def transferResponse.clean (r : transferResponse) : Bool :=
  validString r.Event && validString r.Oid && validString r.Path &&
    (match r.Error with
     | none => true
     | some e => e.clean)

/-- A `progressResponse` whose strings are valid UTF-8 (and whose counters are
in the range of their types). -/
def progressResponse.clean (r : progressResponse) : Bool :=
  validString r.Event && validString r.Oid && inInt64 r.BytesSoFar && inInt64 r.BytesSinceLast



/-- The state right after the init request in `exampleEnv`, diagnostics apart. -/
def initialised : World := { World.start with remote := lit "/backup/lfs", writes := 1,
                                              out := [lit "\x7b\x7d\n"] }

/-- The response that `performUpload` builds in `latin1Env` for the oid
`abc123` and the path `/tmp/obj`. -/
def latin1Response : transferResponse :=
  ⟨lit "complete", lit "abc123", [],
    some ⟨5, rsyncError [lit "/tmp/obj", lit "/backup/lfs/abc123"] (lit "exit status 23") [0xFF]⟩⟩

/-- The response that `performDownload` builds in `refusedEnv` for the oid
`abc123`. -/
def refusedResponse : transferResponse :=
  ⟨lit "complete", lit "abc123", [],
    some ⟨4, rsyncError [lit "/backup/lfs/abc123", lit "/tmp/rsync-agent0"]
      (lit "exit status 10") (lit "connection refused")⟩⟩

/-- Whether every string of the response is valid UTF-8 (and every integer in
the range of its type). -/
def response.clean : response → Bool
  | .init r => r.clean
  | .transfer r => r.clean
  | .progress r => r.clean

/-- The call `json.Unmarshal(data, &v)` for a zero `v` of the type of `r`. -/
def unmarshalLike (r : response) (data : GoString) : Option response :=
  match r with
  | .init _ => (unmarshalInit data).map .init
  | .transfer _ => (unmarshalTransfer data).map .transfer
  | .progress _ => (unmarshalProgress data).map .progress

/-! ## Auxiliary notions for the proofs -/

/-- The function `decodeRune` in terms of the size `n` and the range `lo..hi` for the second
byte that the tables give for the first byte. -/
def decodeWith (n lo hi : Nat) (p : GoString) : Nat × Nat :=
  if p.length < n then (RuneError, 1)
  else if p.getD 1 0 < lo ∨ hi < p.getD 1 0 then (RuneError, 1)
  else if n ≤ 2 then ((p.getD 0 0 % 32) * 64 + p.getD 1 0 % 64, 2)
  else if p.getD 2 0 < 0x80 ∨ 0xBF < p.getD 2 0 then (RuneError, 1)
  else if n ≤ 3 then
    ((p.getD 0 0 % 16) * 4096 + (p.getD 1 0 % 64) * 64 + p.getD 2 0 % 64, 3)
  else if p.getD 3 0 < 0x80 ∨ 0xBF < p.getD 3 0 then (RuneError, 1)
  else ((p.getD 0 0 % 8) * 262144 + (p.getD 1 0 % 64) * 4096 + (p.getD 2 0 % 64) * 64
    + p.getD 3 0 % 64, 4)

/-- The input `s` starts with the encoding of a rune, decoded as `d`. -/
def RuneAt (s : GoString) (d : Nat × Nat) : Prop :=
  ∃ pre t, s = pre ++ t ∧ pre.length = d.2 ∧ encodeRune d.1 = pre ∧
    (∀ x, decodeRune (pre ++ x) = d) ∧ 2 ≤ d.2

/-- One iteration of the loop of `appendString` on a non-empty input: the bytes
written and the number of input bytes used. -/
def chunk (s : GoString) : GoString × Nat :=
  match s with
  | [] => ([], 0)
  | b :: _ =>
    if b < 0x80 then (if htmlSafeSet b then [b] else escapeByte b, 1)
    else
      let d := decodeRune (s.take 4)
      if d.1 = RuneError ∧ d.2 = 1 then ([0x5C, 0x75, 0x66, 0x66, 0x66, 0x64], 1)
      else if d.1 = 0x2028 ∨ d.1 = 0x2029 then
        ([0x5C, 0x75, 0x32, 0x30, 0x32, hex (d.1 % 16)], d.2)
      else (s.take d.2, d.2)

/-- The scanner of a value at depth `d` reads `text` as the tree `v` whenever a
comma or a closing brace follows, with any bound of `m` or more. -/
def Reads (m d : Nat) (text : GoString) (v : JSON) : Prop :=
  ∀ f c X, m ≤ f → (c = 0x2C ∨ c = 0x7D) →
    parseValue f d (text ++ c :: X) = some (v, c :: X) ∧
    skipSpace (text ++ c :: X) = text ++ c :: X

/-- A field name that is written between quotes as it is. -/
def PlainName (name : GoString) : Prop := ∀ b ∈ name, b ≠ 0x22 ∧ b ≠ 0x5C ∧ 0x20 ≤ b

/-- The fields of a struct for the encoder: the name and the encoded value. -/
def fieldTexts (fs : List (GoString × Option (GoString × JSON))) :
    List (GoString × Option GoString) :=
  fs.map (fun p => (p.1, p.2.map Prod.fst))

/-- The members the scanner finds in the object written for the fields. -/
def fieldMembers (fs : List (GoString × Option (GoString × JSON))) : List (GoString × JSON) :=
  fs.filterMap (fun p => p.2.map (fun tv => (p.1, tv.2)))

/-- The tree of the object written for an `operationError`. -/
def errorTree (e : operationError) : JSON :=
  .obj [(lit "code", .num (formatInt e.Code)),
    (lit "message", .str (appendStringBody e.Message.length e.Message))]

/-- The fields of a `transferResponse` as the encoder sees them, with the tree
the scanner makes of each value. -/
def transferFields (r : transferResponse) : List (GoString × Option (GoString × JSON)) :=
  [(lit "event", some (appendString r.Event, .str (appendStringBody r.Event.length r.Event))),
   (lit "oid", some (appendString r.Oid, .str (appendStringBody r.Oid.length r.Oid))),
   (lit "path", if r.Path = [] then none
      else some (appendString r.Path, .str (appendStringBody r.Path.length r.Path))),
   (lit "error", r.Error.map (fun e => (marshalError e, errorTree e)))]

/-- The fields of a `progressResponse` as the encoder sees them, with the tree
the scanner makes of each value. -/
def progressFields (r : progressResponse) : List (GoString × Option (GoString × JSON)) :=
  [(lit "event", some (appendString r.Event, .str (appendStringBody r.Event.length r.Event))),
   (lit "oid", some (appendString r.Oid, .str (appendStringBody r.Oid.length r.Oid))),
   (lit "bytesSoFar", some (formatInt r.BytesSoFar, .num (formatInt r.BytesSoFar))),
   (lit "bytesSinceLast", some (formatInt r.BytesSinceLast, .num (formatInt r.BytesSinceLast)))]

/-! ## Properties: UTF-8 -/

theorem first_ascii (b : Nat) (h : b < 0x80) : first b = 0xF0 := by
  unfold first; rw [if_pos h]

theorem first_invalid (b : Nat) (h : 0x80 ≤ b ∧ b < 0xC2 ∨ 0xF5 ≤ b) : first b = 0xF1 := by
  unfold first
  rcases h with h | h
  · rw [if_neg (by omega), if_pos (by omega)]
  · iterate 10 rw [if_neg (by omega)]

theorem first_two (b : Nat) (h : 0xC2 ≤ b ∧ b < 0xE0) : first b = 0x02 := by
  unfold first
  rw [if_neg (by omega), if_neg (by omega), if_pos (by omega)]

theorem first_E0 : first 0xE0 = 0x13 := by decide
theorem first_ED : first 0xED = 0x23 := by decide
theorem first_F0 : first 0xF0 = 0x34 := by decide
theorem first_F4 : first 0xF4 = 0x44 := by decide

theorem first_three (b : Nat) (h : 0xE1 ≤ b ∧ b < 0xED ∨ b = 0xEE ∨ b = 0xEF) :
    first b = 0x03 := by
  unfold first
  rcases h with h | h | h
  · rw [if_neg (by omega), if_neg (by omega), if_neg (by omega), if_neg (by omega),
      if_pos (by omega)]
  · subst h; decide
  · subst h; decide

theorem first_four (b : Nat) (h : 0xF1 ≤ b ∧ b < 0xF4) : first b = 0x04 := by
  unfold first
  iterate 8 rw [if_neg (by omega)]
  rw [if_pos (by omega)]

theorem byte_class (p0 : Nat) :
    p0 < 0x80 ∨ (0x80 ≤ p0 ∧ p0 < 0xC2 ∨ 0xF5 ≤ p0) ∨ (0xC2 ≤ p0 ∧ p0 < 0xE0) ∨ p0 = 0xE0
      ∨ (0xE1 ≤ p0 ∧ p0 < 0xED ∨ p0 = 0xEE ∨ p0 = 0xEF) ∨ p0 = 0xED ∨ p0 = 0xF0
      ∨ (0xF1 ≤ p0 ∧ p0 < 0xF4) ∨ p0 = 0xF4 := by omega

theorem decodeRune_eq_with (p0 : Nat) (rest : GoString) (x : Nat) (hx : first p0 = x)
    (hlt : x < 0xF0) :
    decodeRune (p0 :: rest)
      = decodeWith (x % 8) (acceptRanges (x / 16)).1 (acceptRanges (x / 16)).2 (p0 :: rest) := by
  simp only [decodeRune, hx, decodeWith, List.getD_cons_zero]
  rw [if_neg (by omega)]

theorem decodeRune_class (p0 : Nat) (h80 : 0x80 ≤ p0) :
    (∀ rest, decodeRune (p0 :: rest) = (RuneError, 1)) ∨
    (0xC2 ≤ p0 ∧ p0 < 0xE0 ∧
      ∀ rest, decodeRune (p0 :: rest) = decodeWith 2 0x80 0xBF (p0 :: rest)) ∨
    (p0 = 0xE0 ∧ ∀ rest, decodeRune (p0 :: rest) = decodeWith 3 0xA0 0xBF (p0 :: rest)) ∨
    ((0xE1 ≤ p0 ∧ p0 < 0xED ∨ p0 = 0xEE ∨ p0 = 0xEF) ∧
      ∀ rest, decodeRune (p0 :: rest) = decodeWith 3 0x80 0xBF (p0 :: rest)) ∨
    (p0 = 0xED ∧ ∀ rest, decodeRune (p0 :: rest) = decodeWith 3 0x80 0x9F (p0 :: rest)) ∨
    (p0 = 0xF0 ∧ ∀ rest, decodeRune (p0 :: rest) = decodeWith 4 0x90 0xBF (p0 :: rest)) ∨
    (0xF1 ≤ p0 ∧ p0 < 0xF4 ∧
      ∀ rest, decodeRune (p0 :: rest) = decodeWith 4 0x80 0xBF (p0 :: rest)) ∨
    (p0 = 0xF4 ∧ ∀ rest, decodeRune (p0 :: rest) = decodeWith 4 0x80 0x8F (p0 :: rest)) := by
  rcases byte_class p0 with h | h | h | h | h | h | h | h | h
  · omega
  · left
    intro rest
    simp only [decodeRune, first_invalid _ h]
    rfl
  · right; left
    exact ⟨h.1, h.2, fun rest => decodeRune_eq_with p0 rest _ (first_two _ h) (by decide)⟩
  · right; right; left
    exact ⟨h, fun rest => decodeRune_eq_with p0 rest _ (h ▸ first_E0) (by decide)⟩
  · right; right; right; left
    exact ⟨h, fun rest => decodeRune_eq_with p0 rest _ (first_three _ h) (by decide)⟩
  · right; right; right; right; left
    exact ⟨h, fun rest => decodeRune_eq_with p0 rest _ (h ▸ first_ED) (by decide)⟩
  · right; right; right; right; right; left
    exact ⟨h, fun rest => decodeRune_eq_with p0 rest _ (h ▸ first_F0) (by decide)⟩
  · right; right; right; right; right; right; left
    exact ⟨h.1, h.2, fun rest => decodeRune_eq_with p0 rest _ (first_four _ h) (by decide)⟩
  · right; right; right; right; right; right; right
    exact ⟨h, fun rest => decodeRune_eq_with p0 rest _ (h ▸ first_F4) (by decide)⟩

theorem decodeWith_two (p0 : Nat) (rest : GoString) (h : 0xC2 ≤ p0 ∧ p0 < 0xE0)
    (hd : ∀ x, decodeRune (p0 :: x) = decodeWith 2 0x80 0xBF (p0 :: x))
    (hv : ¬ ((decodeWith 2 0x80 0xBF (p0 :: rest)).1 = RuneError ∧
      (decodeWith 2 0x80 0xBF (p0 :: rest)).2 = 1)) :
    RuneAt (p0 :: rest) (decodeWith 2 0x80 0xBF (p0 :: rest)) := by
  rcases rest with _ | ⟨b1, t⟩
  · exact absurd ⟨rfl, rfl⟩ hv
  · by_cases hb : b1 < 0x80 ∨ 0xBF < b1
    · have e : decodeWith 2 0x80 0xBF (p0 :: b1 :: t) = (RuneError, 1) := by
        simp only [decodeWith, List.length_cons, List.getD_cons_succ, List.getD_cons_zero]
        rw [if_neg (by omega), if_pos hb]
      rw [e] at hv
      exact absurd ⟨rfl, rfl⟩ hv
    · have e : ∀ x, decodeWith 2 0x80 0xBF (p0 :: b1 :: x) = (p0 % 32 * 64 + b1 % 64, 2) := by
        intro x
        simp only [decodeWith, List.length_cons, List.getD_cons_succ, List.getD_cons_zero]
        rw [if_neg (by omega), if_neg hb, if_pos (by omega)]
      rw [e t]
      refine ⟨[p0, b1], t, rfl, rfl, ?_, fun x => ?_, by simp⟩
      · simp only [encodeRune]
        rw [if_neg (by omega), if_pos (by omega)]
        congr 1
        · omega
        · congr 1; omega
      · rw [← e x]; exact hd _

theorem decodeWith_three (p0 lo hi : Nat) (rest : GoString)
    (h : (p0 = 0xE0 ∧ lo = 0xA0 ∧ hi = 0xBF) ∨
      ((0xE1 ≤ p0 ∧ p0 < 0xED ∨ p0 = 0xEE ∨ p0 = 0xEF) ∧ lo = 0x80 ∧ hi = 0xBF) ∨
      (p0 = 0xED ∧ lo = 0x80 ∧ hi = 0x9F))
    (hd : ∀ x, decodeRune (p0 :: x) = decodeWith 3 lo hi (p0 :: x))
    (hv : ¬ ((decodeWith 3 lo hi (p0 :: rest)).1 = RuneError ∧
      (decodeWith 3 lo hi (p0 :: rest)).2 = 1)) :
    RuneAt (p0 :: rest) (decodeWith 3 lo hi (p0 :: rest)) := by
  rcases rest with _ | ⟨b1, _ | ⟨b2, t⟩⟩
  · exact absurd ⟨rfl, rfl⟩ hv
  · exact absurd ⟨rfl, rfl⟩ hv
  · by_cases hb : b1 < lo ∨ hi < b1
    · have e : decodeWith 3 lo hi (p0 :: b1 :: b2 :: t) = (RuneError, 1) := by
        simp only [decodeWith, List.length_cons, List.getD_cons_succ, List.getD_cons_zero]
        rw [if_neg (by omega), if_pos hb]
      rw [e] at hv
      exact absurd ⟨rfl, rfl⟩ hv
    · by_cases hc : b2 < 0x80 ∨ 0xBF < b2
      · have e : decodeWith 3 lo hi (p0 :: b1 :: b2 :: t) = (RuneError, 1) := by
          simp only [decodeWith, List.length_cons, List.getD_cons_succ, List.getD_cons_zero]
          rw [if_neg (by omega), if_neg hb, if_neg (by omega), if_pos hc]
        rw [e] at hv
        exact absurd ⟨rfl, rfl⟩ hv
      · have e : ∀ x, decodeWith 3 lo hi (p0 :: b1 :: b2 :: x)
            = (p0 % 16 * 4096 + b1 % 64 * 64 + b2 % 64, 3) := by
          intro x
          simp only [decodeWith, List.length_cons, List.getD_cons_succ, List.getD_cons_zero]
          rw [if_neg (by omega), if_neg hb, if_neg (by omega), if_neg hc, if_pos (by omega)]
        rw [e t]
        refine ⟨[p0, b1, b2], t, rfl, rfl, ?_, fun x => ?_, by simp⟩
        · simp only [encodeRune]
          rw [if_neg (by omega), if_neg (by omega), if_neg (by omega), if_pos (by omega)]
          congr 1
          · omega
          · congr 1
            · omega
            · congr 1; omega
        · rw [← e x]; exact hd _

theorem decodeWith_four (p0 lo hi : Nat) (rest : GoString)
    (h : (p0 = 0xF0 ∧ lo = 0x90 ∧ hi = 0xBF) ∨
      ((0xF1 ≤ p0 ∧ p0 < 0xF4) ∧ lo = 0x80 ∧ hi = 0xBF) ∨
      (p0 = 0xF4 ∧ lo = 0x80 ∧ hi = 0x8F))
    (hd : ∀ x, decodeRune (p0 :: x) = decodeWith 4 lo hi (p0 :: x))
    (hv : ¬ ((decodeWith 4 lo hi (p0 :: rest)).1 = RuneError ∧
      (decodeWith 4 lo hi (p0 :: rest)).2 = 1)) :
    RuneAt (p0 :: rest) (decodeWith 4 lo hi (p0 :: rest)) := by
  rcases rest with _ | ⟨b1, _ | ⟨b2, _ | ⟨b3, t⟩⟩⟩
  · exact absurd ⟨rfl, rfl⟩ hv
  · exact absurd ⟨rfl, rfl⟩ hv
  · exact absurd ⟨rfl, rfl⟩ hv
  · by_cases hb : b1 < lo ∨ hi < b1
    · have e : decodeWith 4 lo hi (p0 :: b1 :: b2 :: b3 :: t) = (RuneError, 1) := by
        simp only [decodeWith, List.length_cons, List.getD_cons_succ, List.getD_cons_zero]
        rw [if_neg (by omega), if_pos hb]
      rw [e] at hv
      exact absurd ⟨rfl, rfl⟩ hv
    · by_cases hc : b2 < 0x80 ∨ 0xBF < b2
      · have e : decodeWith 4 lo hi (p0 :: b1 :: b2 :: b3 :: t) = (RuneError, 1) := by
          simp only [decodeWith, List.length_cons, List.getD_cons_succ, List.getD_cons_zero]
          rw [if_neg (by omega), if_neg hb, if_neg (by omega), if_pos hc]
        rw [e] at hv
        exact absurd ⟨rfl, rfl⟩ hv
      · by_cases hd3 : b3 < 0x80 ∨ 0xBF < b3
        · have e : decodeWith 4 lo hi (p0 :: b1 :: b2 :: b3 :: t) = (RuneError, 1) := by
            simp only [decodeWith, List.length_cons, List.getD_cons_succ, List.getD_cons_zero]
            rw [if_neg (by omega), if_neg hb, if_neg (by omega), if_neg hc, if_neg (by omega),
              if_pos hd3]
          rw [e] at hv
          exact absurd ⟨rfl, rfl⟩ hv
        · have e : ∀ x, decodeWith 4 lo hi (p0 :: b1 :: b2 :: b3 :: x)
              = (p0 % 8 * 262144 + b1 % 64 * 4096 + b2 % 64 * 64 + b3 % 64, 4) := by
            intro x
            simp only [decodeWith, List.length_cons, List.getD_cons_succ, List.getD_cons_zero]
            rw [if_neg (by omega), if_neg hb, if_neg (by omega), if_neg hc, if_neg (by omega),
              if_neg hd3]
          rw [e t]
          refine ⟨[p0, b1, b2, b3], t, rfl, rfl, ?_, fun x => ?_, by simp⟩
          · simp only [encodeRune]
            rw [if_neg (by omega), if_neg (by omega), if_neg (by omega), if_neg (by omega)]
            congr 1
            · omega
            · congr 1
              · omega
              · congr 1
                · omega
                · congr 1; omega
          · rw [← e x]; exact hd _

/-- A first byte of `0x80` or more that `decodeRune` does not reject starts the
encoding of the decoded rune. -/
theorem decodeRune_valid (p0 : Nat) (rest : GoString) (h80 : 0x80 ≤ p0)
    (hv : ¬ ((decodeRune (p0 :: rest)).1 = RuneError ∧ (decodeRune (p0 :: rest)).2 = 1)) :
    RuneAt (p0 :: rest) (decodeRune (p0 :: rest)) := by
  rcases decodeRune_class p0 h80 with h | ⟨h1, h2, h⟩ | ⟨h1, h⟩ | ⟨h1, h⟩ | ⟨h1, h⟩
    | ⟨h1, h⟩ | ⟨h1, h2, h⟩ | ⟨h1, h⟩
  · rw [h] at hv; exact absurd ⟨rfl, rfl⟩ hv
  · rw [h] at hv ⊢
    exact decodeWith_two p0 rest ⟨h1, h2⟩ h hv
  · rw [h] at hv ⊢
    exact decodeWith_three p0 _ _ rest (Or.inl ⟨h1, rfl, rfl⟩) h hv
  · rw [h] at hv ⊢
    exact decodeWith_three p0 _ _ rest (Or.inr (Or.inl ⟨h1, rfl, rfl⟩)) h hv
  · rw [h] at hv ⊢
    exact decodeWith_three p0 _ _ rest (Or.inr (Or.inr ⟨h1, rfl, rfl⟩)) h hv
  · rw [h] at hv ⊢
    exact decodeWith_four p0 _ _ rest (Or.inl ⟨h1, rfl, rfl⟩) h hv
  · rw [h] at hv ⊢
    exact decodeWith_four p0 _ _ rest (Or.inr (Or.inl ⟨⟨h1, h2⟩, rfl, rfl⟩)) h hv
  · rw [h] at hv ⊢
    exact decodeWith_four p0 _ _ rest (Or.inr (Or.inr ⟨h1, rfl, rfl⟩)) h hv

theorem first_size_le (p0 : Nat) : first p0 % 8 ≤ 4 := by
  rcases byte_class p0 with h | h | h | h | h | h | h | h | h
  · have := first_ascii _ h; omega
  · have := first_invalid _ h; omega
  · have := first_two _ h; omega
  · have := first_E0; subst h; omega
  · have := first_three _ h; omega
  · have := first_ED; subst h; omega
  · have := first_F0; subst h; omega
  · have := first_four _ h; omega
  · have := first_F4; subst h; omega

/-- The function `decodeRune` looks at no more than four bytes. -/
theorem decodeRune_take4 (s : GoString) : decodeRune (s.take 4) = decodeRune s := by
  rcases s with _ | ⟨p0, _ | ⟨b1, _ | ⟨b2, _ | ⟨b3, t⟩⟩⟩⟩
  · rfl
  · rfl
  · rfl
  · rfl
  · have h := first_size_le p0
    simp only [List.take, decodeRune, List.length_cons, List.length_nil, List.getD_cons_succ,
      List.getD_cons_zero]
    rw [if_neg (by omega : ¬ (0 + 1 + 1 + 1 + 1 < first p0 % 8)),
      if_neg (by omega : ¬ (t.length + 1 + 1 + 1 + 1 < first p0 % 8))]

/-! ## Properties: string literals -/

theorem appendStringBody_step (f : Nat) (b : Nat) (rest : GoString) :
    appendStringBody (f + 1) (b :: rest)
      = (chunk (b :: rest)).1 ++ appendStringBody f ((b :: rest).drop (chunk (b :: rest)).2) := by
  simp only [appendStringBody, chunk]
  by_cases h : b < 0x80
  · rw [if_pos h, if_pos h]
    by_cases hs : htmlSafeSet b = true
    · rw [if_pos hs, if_pos hs]; rfl
    · rw [if_neg hs, if_neg hs]; rfl
  · rw [if_neg h, if_neg h]
    by_cases h1 : (decodeRune ((b :: rest).take 4)).1 = RuneError ∧
        (decodeRune ((b :: rest).take 4)).2 = 1
    · rw [if_pos h1, if_pos h1]; rfl
    · rw [if_neg h1, if_neg h1]
      by_cases h2 : (decodeRune ((b :: rest).take 4)).1 = 0x2028 ∨
          (decodeRune ((b :: rest).take 4)).1 = 0x2029
      · rw [if_pos h2, if_pos h2]
      · rw [if_neg h2, if_neg h2]

theorem hex_spec (n : Nat) (h : n < 16) : isHex (hex n) = true ∧ hexVal (hex n) = n := by
  interval_cases n <;> decide

theorem scanString_plain (c : Nat) (X : GoString) (h1 : c ≠ 0x22) (h2 : c ≠ 0x5C)
    (h3 : ¬ c < 0x20) :
    scanString (c :: X) = (scanString X).map (fun r => (c :: r.1, r.2)) := by
  rw [scanString.eq_def]
  simp only
  rw [if_neg h1, if_neg h2, if_neg h3]

theorem scanString_raw (pre X : GoString) (h : ∀ b ∈ pre, 0x80 ≤ b) :
    scanString (pre ++ X) = (scanString X).map (fun r => (pre ++ r.1, r.2)) := by
  induction pre with
  | nil => simp
  | cons c cs ih =>
    have hc := h c (by simp)
    rw [List.cons_append, scanString_plain c _ (by omega) (by omega) (by omega),
      ih (fun b hb => h b (by simp [hb]))]
    cases scanString X <;> rfl

theorem scanString_esc (e : Nat) (X : GoString)
    (h : e = 0x62 ∨ e = 0x66 ∨ e = 0x6E ∨ e = 0x72 ∨ e = 0x74 ∨ e = 0x5C ∨ e = 0x2F
      ∨ e = 0x22) :
    scanString (0x5C :: e :: X) = (scanString X).map (fun r => (0x5C :: e :: r.1, r.2)) := by
  rw [scanString.eq_def]
  simp only [h, if_true]
  rfl

theorem scanString_u (h1 h2 h3 h4 : Nat) (X : GoString)
    (h : isHex h1 = true ∧ isHex h2 = true ∧ isHex h3 = true ∧ isHex h4 = true) :
    scanString (0x5C :: 0x75 :: h1 :: h2 :: h3 :: h4 :: X)
      = (scanString X).map (fun r => (0x5C :: 0x75 :: h1 :: h2 :: h3 :: h4 :: r.1, r.2)) := by
  rw [scanString.eq_def]
  simp only [h, if_true, and_self]
  rfl


theorem encodeRune_high (r : Nat) (h : 2 ≤ (encodeRune r).length) :
    ∀ b ∈ encodeRune r, 0x80 ≤ b := by
  unfold encodeRune at h ⊢
  by_cases h1 : r ≤ 0x7F
  · rw [if_pos h1] at h; simp at h
  · rw [if_neg h1]
    by_cases h2 : r ≤ 0x7FF
    · rw [if_pos h2]; intro b hb; simp at hb; omega
    · rw [if_neg h2]
      by_cases h3 : r > 0x10FFFF ∨ (0xD800 ≤ r ∧ r ≤ 0xDFFF)
      · rw [if_pos h3]; intro b hb; simp at hb; omega
      · rw [if_neg h3]
        by_cases h4 : r ≤ 0xFFFF
        · rw [if_pos h4]; intro b hb; simp at hb; omega
        · rw [if_neg h4]; intro b hb; simp at hb; omega

/-- What `RuneAt` says about `take` and `drop`. -/
theorem RuneAt.take_drop {s : GoString} {d : Nat × Nat} (h : RuneAt s d) :
    encodeRune d.1 = s.take d.2 ∧ (∀ x, decodeRune (s.take d.2 ++ x) = d) ∧
    (∀ x, (s.take d.2 ++ x).drop d.2 = x) ∧ (∀ b ∈ s.take d.2, 0x80 ≤ b) ∧
    s = s.take d.2 ++ s.drop d.2 ∧ 2 ≤ d.2 := by
  obtain ⟨pre, t, hs, hl, he, hx, h2⟩ := h
  have ht : s.take d.2 = pre := by rw [hs, ← hl]; simp
  rw [ht]
  refine ⟨he, hx, fun x => ?_, ?_, ?_, h2⟩
  · rw [← hl]; simp
  · rw [← he]; exact encodeRune_high _ (by rw [he, hl]; exact h2)
  · rw [hs, ← hl]; simp

theorem htmlSafeSet_spec (b : Nat) (h : htmlSafeSet b = true) :
    0x20 ≤ b ∧ b < 0x80 ∧ b ≠ 0x22 ∧ b ≠ 0x26 ∧ b ≠ 0x3C ∧ b ≠ 0x3E ∧ b ≠ 0x5C := by
  simpa [htmlSafeSet] using h

theorem escapeByte_scan (b : Nat) (hb : b < 0x80) (X : GoString) :
    scanString (escapeByte b ++ X) = (scanString X).map (fun r => (escapeByte b ++ r.1, r.2)) := by
  unfold escapeByte
  by_cases h1 : b = 0x5C ∨ b = 0x22
  · rw [if_pos h1]
    exact scanString_esc b X (by omega)
  rw [if_neg h1]
  by_cases h2 : b = 0x08
  · rw [if_pos h2]; exact scanString_esc _ X (by decide)
  rw [if_neg h2]
  by_cases h3 : b = 0x0C
  · rw [if_pos h3]; exact scanString_esc _ X (by decide)
  rw [if_neg h3]
  by_cases h4 : b = 0x0A
  · rw [if_pos h4]; exact scanString_esc _ X (by decide)
  rw [if_neg h4]
  by_cases h5 : b = 0x0D
  · rw [if_pos h5]; exact scanString_esc _ X (by decide)
  rw [if_neg h5]
  by_cases h6 : b = 0x09
  · rw [if_pos h6]; exact scanString_esc _ X (by decide)
  rw [if_neg h6]
  exact scanString_u _ _ _ _ X ⟨by decide, by decide, (hex_spec _ (by omega)).1,
    (hex_spec _ (by omega)).1⟩

theorem chunk_scan (b : Nat) (rest X : GoString) :
    scanString ((chunk (b :: rest)).1 ++ X)
      = (scanString X).map (fun r => ((chunk (b :: rest)).1 ++ r.1, r.2)) := by
  simp only [chunk]
  by_cases h : b < 0x80
  · rw [if_pos h]
    by_cases hs : htmlSafeSet b = true
    · rw [if_pos hs]
      have := htmlSafeSet_spec b hs
      exact scanString_plain b X (by omega) (by omega) (by omega)
    · rw [if_neg hs]
      exact escapeByte_scan b h X
  · rw [if_neg h, decodeRune_take4]
    by_cases h1 : (decodeRune (b :: rest)).1 = RuneError ∧ (decodeRune (b :: rest)).2 = 1
    · rw [if_pos h1]
      exact scanString_u _ _ _ _ X (by decide)
    · rw [if_neg h1]
      by_cases h2 : (decodeRune (b :: rest)).1 = 0x2028 ∨ (decodeRune (b :: rest)).1 = 0x2029
      · rw [if_pos h2]
        exact scanString_u _ _ _ _ X ⟨by decide, by decide, by decide,
          (hex_spec _ (Nat.mod_lt _ (by decide))).1⟩
      · rw [if_neg h2]
        have hr := (decodeRune_valid b rest (by omega) h1).take_drop
        exact scanString_raw _ X hr.2.2.2.1

theorem scanString_quote (X : GoString) : scanString (0x22 :: X) = some ([], X) := by
  rw [scanString.eq_def]; simp

/-- The encoder writes a string body that the scanner reads back whole, up to
the closing quote. -/
theorem scanString_appendStringBody (f : Nat) :
    ∀ s X, scanString (appendStringBody f s ++ 0x22 :: X) = some (appendStringBody f s, X) := by
  induction f with
  | zero => intro s X; simp [appendStringBody, scanString_quote]
  | succ f ih =>
    intro s X
    rcases s with _ | ⟨b, rest⟩
    · simp [appendStringBody, scanString_quote]
    · rw [appendStringBody_step, List.append_assoc, chunk_scan, ih]
      rfl


theorem unquoteBody_plain (g c : Nat) (X : GoString) (h1 : c ≠ 0x5C) (h2 : c ≠ 0x22)
    (h3 : 0x20 ≤ c) (h4 : c < 0x80) :
    unquoteBody (g + 1) (c :: X) = (unquoteBody g X).map (fun t => c :: t) := by
  simp only [unquoteBody]
  rw [if_neg h1, if_neg (by omega), if_pos h4]

theorem unquoteBody_raw (g c : Nat) (X : GoString) (h : 0x80 ≤ c) :
    unquoteBody (g + 1) (c :: X)
      = (unquoteBody g ((c :: X).drop (decodeRune (c :: X)).2)).map
          (fun t => encodeRune (decodeRune (c :: X)).1 ++ t) := by
  simp only [unquoteBody]
  rw [if_neg (by omega), if_neg (by omega), if_neg (by omega)]

theorem unquoteBody_esc (g e v : Nat) (X : GoString)
    (h : (e = 0x22 ∨ e = 0x5C) ∧ v = e ∨ e = 0x62 ∧ v = 0x08 ∨ e = 0x66 ∧ v = 0x0C
      ∨ e = 0x6E ∧ v = 0x0A ∨ e = 0x72 ∧ v = 0x0D ∨ e = 0x74 ∧ v = 0x09) :
    unquoteBody (g + 1) (0x5C :: e :: X) = (unquoteBody g X).map (fun t => v :: t) := by
  simp only [unquoteBody, if_true]
  rcases h with ⟨h, rfl⟩ | ⟨rfl, rfl⟩ | ⟨rfl, rfl⟩ | ⟨rfl, rfl⟩ | ⟨rfl, rfl⟩ | ⟨rfl, rfl⟩
  · rw [if_pos (by omega)]
  · simp
  · simp
  · simp
  · simp
  · simp

theorem getu4_eq (h1 h2 h3 h4 : Nat) (X : GoString)
    (h : isHex h1 = true ∧ isHex h2 = true ∧ isHex h3 = true ∧ isHex h4 = true) :
    getu4 (0x5C :: 0x75 :: h1 :: h2 :: h3 :: h4 :: X)
      = some (((hexVal h1 * 16 + hexVal h2) * 16 + hexVal h3) * 16 + hexVal h4) := by
  simp only [getu4, h, and_self, if_true]

theorem unquoteBody_u (g h1 h2 h3 h4 rr : Nat) (X : GoString)
    (h : isHex h1 = true ∧ isHex h2 = true ∧ isHex h3 = true ∧ isHex h4 = true)
    (hrr : ((hexVal h1 * 16 + hexVal h2) * 16 + hexVal h3) * 16 + hexVal h4 = rr)
    (hs : ¬ (0xD800 ≤ rr ∧ rr < 0xE000)) :
    unquoteBody (g + 1) (0x5C :: 0x75 :: h1 :: h2 :: h3 :: h4 :: X)
      = (unquoteBody g X).map (fun t => encodeRune rr ++ t) := by
  simp only [unquoteBody, if_true, getu4_eq h1 h2 h3 h4 X h, hrr]
  rw [if_neg (by decide), if_neg (by decide), if_neg (by decide), if_neg (by decide),
    if_neg (by decide), if_neg (by decide), if_neg hs]
  rfl

theorem escapeByte_unquote (g b : Nat) (hb : b < 0x80) (X : GoString) :
    unquoteBody (g + 1) (escapeByte b ++ X) = (unquoteBody g X).map (fun t => b :: t) := by
  unfold escapeByte
  by_cases h1 : b = 0x5C ∨ b = 0x22
  · rw [if_pos h1]
    exact unquoteBody_esc g b b X (by omega)
  rw [if_neg h1]
  by_cases h2 : b = 0x08
  · rw [if_pos h2]; exact unquoteBody_esc g _ b X (by omega)
  rw [if_neg h2]
  by_cases h3 : b = 0x0C
  · rw [if_pos h3]; exact unquoteBody_esc g _ b X (by omega)
  rw [if_neg h3]
  by_cases h4 : b = 0x0A
  · rw [if_pos h4]; exact unquoteBody_esc g _ b X (by omega)
  rw [if_neg h4]
  by_cases h5 : b = 0x0D
  · rw [if_pos h5]; exact unquoteBody_esc g _ b X (by omega)
  rw [if_neg h5]
  by_cases h6 : b = 0x09
  · rw [if_pos h6]; exact unquoteBody_esc g _ b X (by omega)
  rw [if_neg h6]
  have e := unquoteBody_u g 0x30 0x30 (hex (b / 16)) (hex (b % 16)) b X
    ⟨by decide, by decide, (hex_spec _ (by omega)).1, (hex_spec _ (by omega)).1⟩
    (by
      rw [(hex_spec _ (by omega : b / 16 < 16)).2, (hex_spec _ (by omega : b % 16 < 16)).2]
      have : hexVal 0x30 = 0 := by decide
      rw [this]
      omega)
    (by omega)
  have e1 : encodeRune b = [b] := by
    unfold encodeRune; rw [if_pos (by omega)]
  rw [e1] at e
  exact e

/-- One iteration of the decoder undoes one iteration of the encoder, when the
input starts with an ASCII byte or a valid encoding. -/
theorem chunk_unquote (g b : Nat) (rest X : GoString)
    (hv : b < 0x80 ∨
      ¬ ((decodeRune (b :: rest)).1 = RuneError ∧ (decodeRune (b :: rest)).2 = 1)) :
    unquoteBody (g + 1) ((chunk (b :: rest)).1 ++ X)
      = (unquoteBody g X).map (fun t => (b :: rest).take (chunk (b :: rest)).2 ++ t) := by
  simp only [chunk]
  by_cases h : b < 0x80
  · rw [if_pos h]
    by_cases hs : htmlSafeSet b = true
    · rw [if_pos hs]
      have := htmlSafeSet_spec b hs
      exact unquoteBody_plain g b X (by omega) (by omega) (by omega) (by omega)
    · rw [if_neg hs]
      exact escapeByte_unquote g b h X
  · rw [if_neg h, decodeRune_take4]
    have h1 : ¬ ((decodeRune (b :: rest)).1 = RuneError ∧ (decodeRune (b :: rest)).2 = 1) := by
      rcases hv with hv | hv
      · exact absurd hv h
      · exact hv
    rw [if_neg h1]
    have hr := (decodeRune_valid b rest (by omega) h1).take_drop
    by_cases h2 : (decodeRune (b :: rest)).1 = 0x2028 ∨ (decodeRune (b :: rest)).1 = 0x2029
    · rw [if_pos h2]
      simp only
      rw [← hr.1]
      rcases h2 with h2 | h2
      · rw [h2]
        exact unquoteBody_u g _ _ _ _ 0x2028 X (by decide) (by decide) (by decide)
      · rw [h2]
        exact unquoteBody_u g _ _ _ _ 0x2029 X (by decide) (by decide) (by decide)
    · rw [if_neg h2]
      simp only
      have hne : (b :: rest).take (decodeRune (b :: rest)).2
          = b :: rest.take ((decodeRune (b :: rest)).2 - 1) := by
        obtain ⟨n, hn⟩ : ∃ n, (decodeRune (b :: rest)).2 = n + 1 :=
          ⟨(decodeRune (b :: rest)).2 - 1, by have := hr.2.2.2.2.2; omega⟩
        rw [hn]; simp
      have e := unquoteBody_raw g b (rest.take ((decodeRune (b :: rest)).2 - 1) ++ X) (by omega)
      rw [← List.cons_append, ← hne, hr.2.1 X, hr.2.2.1 X, hr.1] at e
      exact e

theorem chunk_pos (b : Nat) (rest : GoString) :
    1 ≤ (chunk (b :: rest)).1.length ∧ 1 ≤ (chunk (b :: rest)).2 := by
  simp only [chunk]
  by_cases h : b < 0x80
  · rw [if_pos h]
    by_cases hs : htmlSafeSet b = true
    · rw [if_pos hs]; simp
    · rw [if_neg hs]
      refine ⟨?_, le_refl _⟩
      unfold escapeByte
      repeat' split
      all_goals simp
  · rw [if_neg h, decodeRune_take4]
    by_cases h1 : (decodeRune (b :: rest)).1 = RuneError ∧ (decodeRune (b :: rest)).2 = 1
    · rw [if_pos h1]; simp
    · rw [if_neg h1]
      have hr := (decodeRune_valid b rest (by omega) h1).take_drop
      by_cases h2 : (decodeRune (b :: rest)).1 = 0x2028 ∨ (decodeRune (b :: rest)).1 = 0x2029
      · rw [if_pos h2]
        have h3 := hr.2.2.2.2.2
        exact ⟨by simp, by simp only; omega⟩
      · rw [if_neg h2]
        have h3 := hr.2.2.2.2.2
        have h4 := congrArg List.length hr.2.2.2.2.1
        simp only [List.length_append, List.length_take, List.length_drop,
          List.length_cons] at h4 ⊢
        omega

/-- Decoding what the encoder wrote for a valid string gives the string back. -/
theorem unquoteBody_appendStringBody (f : Nat) :
    ∀ s g, s.length ≤ f → (appendStringBody f s).length ≤ g → validFrom f s = true →
      unquoteBody g (appendStringBody f s) = some s := by
  induction f with
  | zero =>
    intro s g hs _ _
    have : s = [] := List.length_eq_zero.mp (by omega)
    subst this
    cases g <;> simp [appendStringBody, unquoteBody]
  | succ f ih =>
    intro s g hs hg hv
    rcases s with _ | ⟨b, rest⟩
    · cases g <;> simp [appendStringBody, unquoteBody]
    · rw [appendStringBody_step] at hg ⊢
      have hp := chunk_pos b rest
      obtain ⟨g, rfl⟩ : ∃ g', g = g' + 1 := ⟨g - 1, by
        simp only [List.length_append] at hg; omega⟩
      have hvalid : (b < 0x80 ∨
          ¬ ((decodeRune (b :: rest)).1 = RuneError ∧ (decodeRune (b :: rest)).2 = 1)) ∧
          validFrom f ((b :: rest).drop (chunk (b :: rest)).2) = true := by
        simp only [validFrom] at hv
        simp only [chunk]
        by_cases h : b < 0x80
        · rw [if_pos h] at hv
          rw [if_pos h]
          exact ⟨Or.inl h, by simpa using hv⟩
        · rw [if_neg h] at hv
          rw [if_neg h, decodeRune_take4]
          by_cases h1 : (decodeRune (b :: rest)).1 = RuneError ∧ (decodeRune (b :: rest)).2 = 1
          · rw [if_pos h1] at hv; cases hv
          · rw [if_neg h1] at hv
            rw [if_neg h1]
            refine ⟨Or.inr h1, ?_⟩
            by_cases h2 : (decodeRune (b :: rest)).1 = 0x2028 ∨
                (decodeRune (b :: rest)).1 = 0x2029
            · rw [if_pos h2]; exact hv
            · rw [if_neg h2]; exact hv
      rw [chunk_unquote g b rest _ hvalid.1]
      rw [ih _ g (by simp only [List.length_drop, List.length_cons] at hs ⊢; omega)
        (by simp only [List.length_append] at hg; omega) hvalid.2]
      simp

/-- The decoder's `unquote` undoes the encoder's `appendString` on every valid
UTF-8 string. -/
theorem unquote_appendStringBody (s : GoString) (hv : validString s = true) :
    unquote (appendStringBody s.length s) = some s :=
  unquoteBody_appendStringBody s.length s _ (le_refl _) (le_refl _) hv

/-! ## Properties: integers -/

theorem formatBits_acc (f : Nat) : ∀ n acc, formatBits f n acc = formatBits f n [] ++ acc := by
  induction f with
  | zero => intro n acc; rfl
  | succ f ih =>
    intro n acc
    simp only [formatBits]
    by_cases h : n / 10 = 0
    · rw [if_pos h, if_pos h]; rfl
    · rw [if_neg h, if_neg h, ih (n / 10) ((48 + n % 10) :: acc),
        ih (n / 10) [48 + n % 10]]
      simp

theorem formatBits_digits (f : Nat) : ∀ n, ∀ c ∈ formatBits f n [], isDigit c = true := by
  induction f with
  | zero => intro n c hc; simp [formatBits] at hc
  | succ f ih =>
    intro n c hc
    simp only [formatBits] at hc
    by_cases h : n / 10 = 0
    · rw [if_pos h] at hc
      simp only [List.mem_singleton] at hc
      subst hc
      simp only [isDigit, decide_eq_true_eq]
      omega
    · rw [if_neg h, formatBits_acc] at hc
      simp only [List.mem_append, List.mem_singleton] at hc
      rcases hc with hc | hc
      · exact ih _ c hc
      · subst hc
        simp only [isDigit, decide_eq_true_eq]
        omega

/-- The digits of a number start with a digit other than `0`, except for the
single digit `0` of zero. -/
theorem formatBits_head (f : Nat) : ∀ n, n < f →
    ∃ c ds, formatBits f n [] = c :: ds ∧ (n = 0 → c = 0x30 ∧ ds = []) ∧
      (0 < n → 0x31 ≤ c ∧ c ≤ 0x39) := by
  induction f with
  | zero => intro n h; omega
  | succ f ih =>
    intro n hn
    simp only [formatBits]
    by_cases h : n / 10 = 0
    · rw [if_pos h]
      exact ⟨48 + n % 10, [], rfl, fun h0 => ⟨by omega, rfl⟩, fun hp => by omega⟩
    · rw [if_neg h, formatBits_acc]
      obtain ⟨c, ds, e, -, h2⟩ := ih (n / 10) (by omega)
      rw [e]
      exact ⟨c, ds ++ [48 + n % 10], rfl, fun h0 => by omega, fun _ => h2 (by omega)⟩

theorem digitsValue_formatBits (f : Nat) : ∀ n acc, n < f →
    (formatBits f n acc).foldl (fun a d => 10 * a + (d - 0x30)) 0
      = acc.foldl (fun a d => 10 * a + (d - 0x30)) n := by
  induction f with
  | zero => intro n acc h; omega
  | succ f ih =>
    intro n acc hn
    simp only [formatBits]
    by_cases h : n / 10 = 0
    · rw [if_pos h]
      simp only [List.foldl_cons]
      congr 1
      omega
    · rw [if_neg h, ih (n / 10) _ (by omega)]
      simp only [List.foldl_cons]
      congr 1
      omega

theorem spanDigits_append (ds : GoString) (c : Nat) (X : GoString)
    (hd : ∀ d ∈ ds, isDigit d = true) (hc : isDigit c = false) :
    spanDigits (ds ++ c :: X) = (ds, c :: X) := by
  induction ds with
  | nil => simp [spanDigits, hc]
  | cons d ds ih =>
    have h1 := hd d (by simp)
    have h2 := ih (fun x hx => hd x (by simp [hx]))
    rw [List.cons_append, spanDigits, if_pos h1, h2]


theorem scanFraction_stop (acc : GoString) (c : Nat) (X : GoString)
    (hc : c = 0x2C ∨ c = 0x7D) : scanFraction acc (c :: X) = some (acc, c :: X) := by
  simp only [scanFraction, scanExponent]
  rw [if_neg (by omega), if_neg (by omega)]

theorem isDigit_stop (c : Nat) (hc : c = 0x2C ∨ c = 0x7D) : isDigit c = false := by
  rcases hc with rfl | rfl <;> decide

/-- The scanner reads the digits of a natural number up to a comma or a closing
brace. -/
theorem scanNumber_formatBits (n : Nat) (c : Nat) (X : GoString) (hc : c = 0x2C ∨ c = 0x7D)
    (sign : GoString) (hs : sign = [] ∨ (sign = [0x2D] ∧ 0 < n)) :
    scanNumber (sign ++ formatBits (n + 1) n [] ++ c :: X)
      = some (sign ++ formatBits (n + 1) n [], c :: X) := by
  obtain ⟨d0, ds, e, h0, hp⟩ := formatBits_head (n + 1) n (by omega)
  have hdig := formatBits_digits (n + 1) n
  rw [e] at hdig ⊢
  have hd0 : isDigit d0 = true := hdig d0 (by simp)
  have hd0' : 0x30 ≤ d0 ∧ d0 ≤ 0x39 := by simpa [isDigit] using hd0
  have hds : ∀ d ∈ ds, isDigit d = true := fun d hd => hdig d (by simp [hd])
  have hsp := spanDigits_append ds c X hds (isDigit_stop c hc)
  have key : scanNumber (d0 :: ds ++ c :: X) = some (d0 :: ds, c :: X)
      ∧ (0 < n → scanNumber (0x2D :: d0 :: ds ++ c :: X) = some (0x2D :: d0 :: ds, c :: X)) := by
    constructor
    · simp only [scanNumber, List.cons_append, List.head?_cons, Option.some.injEq]
      rw [if_neg (by omega), if_neg (by omega)]
      simp only [List.nil_append]
      by_cases hz : d0 = 0x30
      · have : n = 0 := by
          by_contra hn
          have := hp (by omega)
          omega
        obtain ⟨-, rfl⟩ := h0 this
        rw [if_pos hz, hz]
        exact scanFraction_stop _ c X hc
      · rw [if_neg hz, if_pos hd0, hsp]
        exact scanFraction_stop _ c X hc
    · intro hn
      have h1 := hp hn
      simp only [scanNumber, List.cons_append, List.head?_cons, if_true, List.drop_succ_cons,
        List.drop_zero]
      rw [if_neg (by omega), if_pos hd0, hsp]
      exact scanFraction_stop _ c X hc
  rcases hs with rfl | ⟨rfl, hn⟩
  · simpa using key.1
  · simpa using key.2 hn

theorem formatInt_eq (n : Int) :
    formatInt n = (if n < 0 then [0x2D] else []) ++ formatBits (n.natAbs + 1) n.natAbs [] := by
  unfold formatInt
  by_cases h : n < 0
  · rw [if_pos h, if_pos h]; rfl
  · rw [if_neg h, if_neg h]; rfl

/-- The scanner reads a formatted integer as one number, up to a comma or a
closing brace. -/
theorem parseValue_formatInt (f d : Nat) (n : Int) (c : Nat) (X : GoString)
    (hc : c = 0x2C ∨ c = 0x7D) :
    parseValue (f + 1) d (formatInt n ++ c :: X) = some (.num (formatInt n), c :: X) := by
  have hs := scanNumber_formatBits n.natAbs c X hc (if n < 0 then [0x2D] else [])
    (by by_cases h : n < 0
        · rw [if_pos h]; exact Or.inr ⟨rfl, by omega⟩
        · rw [if_neg h]; exact Or.inl rfl)
  rw [← formatInt_eq] at hs
  obtain ⟨c0, cs, e, hc0⟩ : ∃ c0 cs, formatInt n = c0 :: cs ∧ (c0 = 0x2D ∨ isDigit c0 = true) := by
    obtain ⟨d0, ds, e, -, -⟩ := formatBits_head (n.natAbs + 1) n.natAbs (by omega)
    have hdig := formatBits_digits (n.natAbs + 1) n.natAbs d0 (by rw [e]; simp)
    rw [formatInt_eq, e]
    by_cases h : n < 0
    · rw [if_pos h]; exact ⟨_, _, rfl, Or.inl rfl⟩
    · rw [if_neg h]; exact ⟨_, _, rfl, Or.inr hdig⟩
  rw [e] at hs ⊢
  have hne : c0 ≠ 0x7B ∧ c0 ≠ 0x5B ∧ c0 ≠ 0x22 := by
    rcases hc0 with h | h
    · omega
    · have : 0x30 ≤ c0 ∧ c0 ≤ 0x39 := by simpa [isDigit] using h
      omega
  simp only [List.cons_append] at hs ⊢
  rw [parseValue]
  rw [if_neg hne.1, if_neg hne.2.1, if_neg hne.2.2, if_pos hc0, hs]
  rfl

theorem parseInt64_pos (d0 : Nat) (ds : GoString) (hd0 : 0x30 ≤ d0 ∧ d0 ≤ 0x39)
    (hall : (d0 :: ds).all isDigit = true) (hv : digitsValue (d0 :: ds) < 2 ^ 63) :
    parseInt64 (d0 :: ds) = some (digitsValue (d0 :: ds) : Int) := by
  have hx : ¬ (d0 = 0x2B) := by omega
  have hy : ¬ (d0 = 0x2D) := by omega
  simp only [parseInt64, List.head?_cons, Option.some.injEq, hx, hy, if_false, decide_False,
    hall, reduceCtorEq, not_true_eq_false, or_self, Bool.false_eq_true]
  rw [if_pos hv]

theorem parseInt64_neg (ds : GoString) (hne : ds ≠ [])
    (hall : ds.all isDigit = true) (hv : digitsValue ds ≤ 2 ^ 63) :
    parseInt64 (0x2D :: ds) = some (- (digitsValue ds : Int)) := by
  simp only [parseInt64, List.head?_cons, true_or, if_true, decide_True, List.drop_succ_cons,
    List.drop_zero, hall, hne, not_true_eq_false, or_self, if_false]
  rw [if_pos hv]

/-- The parser `strconv.ParseInt` reads back what `strconv.AppendInt` wrote, for every
integer in the range of `int64`. -/
theorem parseInt64_formatInt (n : Int) (h1 : -(2 : Int) ^ 63 ≤ n) (h2 : n < (2 : Int) ^ 63) :
    parseInt64 (formatInt n) = some n := by
  obtain ⟨d0, ds, e, -, -⟩ := formatBits_head (n.natAbs + 1) n.natAbs (by omega)
  have hdig := formatBits_digits (n.natAbs + 1) n.natAbs
  have hval : digitsValue (formatBits (n.natAbs + 1) n.natAbs []) = n.natAbs := by
    have := digitsValue_formatBits (n.natAbs + 1) n.natAbs [] (by omega)
    simpa [digitsValue] using this
  have hd0 : 0x30 ≤ d0 ∧ d0 ≤ 0x39 := by
    have := hdig d0 (by rw [e]; simp)
    simpa [isDigit] using this
  have hall : (formatBits (n.natAbs + 1) n.natAbs []).all isDigit = true := by
    rw [List.all_eq_true]; exact hdig
  rw [formatInt_eq]
  by_cases h : n < 0
  · rw [if_pos h, List.singleton_append,
      parseInt64_neg _ (by rw [e]; simp) hall (by rw [hval]; omega), hval]
    congr 1
    omega
  · rw [if_neg h, List.nil_append]
    rw [e] at hall hval ⊢
    rw [parseInt64_pos d0 ds hd0 hall (by rw [hval]; omega), hval]
    congr 1
    omega

/-! ## Properties: objects -/

theorem scanString_name (name : GoString) (h : PlainName name) (X : GoString) :
    scanString (name ++ 0x22 :: X) = some (name, X) := by
  induction name with
  | nil => exact scanString_quote X
  | cons c cs ih =>
    have hc := h c (by simp)
    rw [List.cons_append, scanString_plain c _ hc.1 hc.2.1 (by omega),
      ih (fun b hb => h b (by simp [hb]))]
    rfl

theorem skipSpace_cons (c : Nat) (X : GoString) (h : isSpace c = false) :
    skipSpace (c :: X) = c :: X := by
  rw [skipSpace, h]; rfl

theorem encodeFields_absent (next : Nat) (fs : List (GoString × Option (GoString × JSON)))
    (h : fieldMembers fs = []) :
    encodeFields next (fieldTexts fs) = if next = 0x7B then [0x7B, 0x7D] else [0x7D] := by
  induction fs with
  | nil => rfl
  | cons p ps ih =>
    rcases p with ⟨n, _ | ⟨t, v⟩⟩
    · simp only [fieldTexts, List.map_cons, Option.map_none', encodeFields] at ih ⊢
      exact ih (by simpa [fieldMembers] using h)
    · simp [fieldMembers] at h

/-- The scanner reads the members written by the struct encoder. -/
theorem parseMembers_encodeFields (m d : Nat)
    (fs : List (GoString × Option (GoString × JSON))) :
    (∀ p ∈ fs, PlainName p.1 ∧ ∀ tv, p.2 = some tv → Reads m d tv.1 tv.2) →
    fieldMembers fs ≠ [] →
    ∃ K, (∀ next, encodeFields next (fieldTexts fs) = next :: 0x22 :: K) ∧
      ∀ F X, m + (fieldMembers fs).length ≤ F →
        parseMembers F d (0x22 :: K ++ X) = some (fieldMembers fs, X) := by
  induction fs with
  | nil => intro _ h; exact absurd rfl h
  | cons p ps ih =>
    intro hfs hne
    rcases p with ⟨n, _ | ⟨t, v⟩⟩
    · have hne' : fieldMembers ps ≠ [] := by simpa [fieldMembers] using hne
      obtain ⟨K, hK, hP⟩ := ih (fun q hq => hfs q (by simp [hq])) hne'
      refine ⟨K, fun next => ?_, fun F X hF => ?_⟩
      · simp only [fieldTexts, List.map_cons, Option.map_none', encodeFields] at hK ⊢
        exact hK next
      · have e : fieldMembers ((n, none) :: ps) = fieldMembers ps := by simp [fieldMembers]
        rw [e] at hF ⊢
        exact hP F X hF
    · have hn := (hfs (n, some (t, v)) (by simp)).1
      have hr := (hfs (n, some (t, v)) (by simp)).2 (t, v) rfl
      have e : fieldMembers ((n, some (t, v)) :: ps) = (n, v) :: fieldMembers ps := by
        simp [fieldMembers]
      refine ⟨n ++ 0x22 :: 0x3A :: (t ++ encodeFields 0x2C (fieldTexts ps)), fun next => ?_,
        fun F X hF => ?_⟩
      · simp only [fieldTexts, List.map_cons, Option.map_some', encodeFields]
      · rw [e] at hF ⊢
        simp only [List.length_cons] at hF
        obtain ⟨F, rfl⟩ : ∃ F', F = F' + 1 := ⟨F - 1, by omega⟩
        simp only [List.cons_append, List.append_assoc]
        rw [parseMembers]
        simp only [if_true]
        rw [scanString_name n hn]
        simp only
        rw [skipSpace_cons _ _ (by decide)]
        simp only [if_true]
        by_cases hps : fieldMembers ps = []
        · rw [encodeFields_absent _ ps hps, if_neg (by decide)]
          have h1 := hr F 0x7D X (by omega) (Or.inr rfl)
          simp only [List.singleton_append]
          rw [h1.2, h1.1]
          simp only
          rw [skipSpace_cons _ _ (by decide)]
          simp only [hps, if_true]
          rfl
        · obtain ⟨K, hK, hP⟩ := ih (fun q hq => hfs q (by simp [hq])) hps
          rw [hK 0x2C]
          have h1 := hr F 0x2C (0x22 :: K ++ X) (by omega) (Or.inl rfl)
          simp only [List.cons_append] at h1 ⊢
          rw [h1.2, h1.1]
          simp only
          rw [skipSpace_cons _ _ (by decide)]
          simp only [if_true]
          rw [skipSpace_cons _ _ (by decide)]
          have h2 := hP F X (by omega)
          simp only [List.cons_append] at h2
          rw [h2]
          rfl

/-- The scanner reads the object written by the struct encoder. -/
theorem parseValue_encodeFields (m d : Nat)
    (fs : List (GoString × Option (GoString × JSON)))
    (hfs : ∀ p ∈ fs, PlainName p.1 ∧ ∀ tv, p.2 = some tv → Reads m (d + 1) tv.1 tv.2)
    (hd : d < maxNestingDepth) (F : Nat) (X : GoString)
    (hF : fieldMembers fs ≠ [] → m + (fieldMembers fs).length ≤ F) :
    parseValue (F + 1) d (encodeFields 0x7B (fieldTexts fs) ++ X)
      = some (.obj (fieldMembers fs), X) := by
  by_cases hps : fieldMembers fs = []
  · rw [encodeFields_absent _ fs hps, if_pos rfl, hps]
    simp only [List.cons_append, List.nil_append]
    rw [parseValue]
    simp only [if_true]
    rw [if_neg (by omega), skipSpace_cons _ _ (by decide)]
    simp only [if_true]
  · obtain ⟨K, hK, hP⟩ := parseMembers_encodeFields m (d + 1) fs hfs hps
    rw [hK 0x7B]
    simp only [List.cons_append]
    rw [parseValue]
    simp only [if_true]
    rw [if_neg (by omega), skipSpace_cons _ _ (by decide)]
    simp only
    rw [if_neg (by decide)]
    have h2 := hP F X (hF hps)
    simp only [List.cons_append] at h2
    rw [h2]
    rfl

/-! ## Properties: round trip of the responses -/

theorem reads_string (d : Nat) (s : GoString) :
    Reads 1 d (appendString s) (.str (appendStringBody s.length s)) := by
  intro f c X hf _
  obtain ⟨f, rfl⟩ : ∃ f', f = f' + 1 := ⟨f - 1, by omega⟩
  refine ⟨?_, skipSpace_cons _ _ (by decide)⟩
  simp only [appendString, List.cons_append, List.append_assoc, List.singleton_append]
  rw [parseValue]
  simp only [if_true, List.nil_append]
  rw [scanString_appendStringBody]
  rfl

theorem reads_int (d : Nat) (n : Int) : Reads 1 d (formatInt n) (.num (formatInt n)) := by
  intro f c X hf hc
  obtain ⟨f, rfl⟩ : ∃ f', f = f' + 1 := ⟨f - 1, by omega⟩
  refine ⟨parseValue_formatInt f d n c X hc, ?_⟩
  obtain ⟨d0, ds, e, -, -⟩ := formatBits_head (n.natAbs + 1) n.natAbs (by omega)
  have hdig := formatBits_digits (n.natAbs + 1) n.natAbs d0 (by rw [e]; simp)
  have hd0 : 0x30 ≤ d0 ∧ d0 ≤ 0x39 := by simpa [isDigit] using hdig
  rw [formatInt_eq, e]
  by_cases h : n < 0
  · rw [if_pos h]; exact skipSpace_cons _ _ (by decide)
  · rw [if_neg h]
    refine skipSpace_cons _ _ ?_
    simp only [isSpace, decide_eq_false_iff_not]
    omega

theorem Reads.mono {m d : Nat} {t : GoString} {v : JSON} (h : Reads m d t v) {n : Nat}
    (hn : m ≤ n) : Reads n d t v :=
  fun f c X hf hc => h f c X (by omega) hc

theorem plain_code : PlainName (lit "code") := by unfold PlainName; decide
theorem plain_message : PlainName (lit "message") := by unfold PlainName; decide
theorem plain_error : PlainName (lit "error") := by unfold PlainName; decide
theorem plain_event : PlainName (lit "event") := by unfold PlainName; decide
theorem plain_oid : PlainName (lit "oid") := by unfold PlainName; decide
theorem plain_path : PlainName (lit "path") := by unfold PlainName; decide
theorem plain_bytesSoFar : PlainName (lit "bytesSoFar") := by unfold PlainName; decide
theorem plain_bytesSinceLast : PlainName (lit "bytesSinceLast") := by unfold PlainName; decide


/-- The tree of the object written for an `operationError`. -/
theorem reads_error (d : Nat) (e : operationError) (hd : d < maxNestingDepth) :
    Reads 4 d (marshalError e)
      (.obj [(lit "code", .num (formatInt e.Code)),
        (lit "message", .str (appendStringBody e.Message.length e.Message))]) := by
  intro f c X hf _
  obtain ⟨f, rfl⟩ : ∃ f', f = f' + 1 := ⟨f - 1, by omega⟩
  have h := parseValue_encodeFields 1 d
    [(lit "code", some (formatInt e.Code, .num (formatInt e.Code))),
     (lit "message", some (appendString e.Message,
        .str (appendStringBody e.Message.length e.Message)))]
    (by
      intro p hp
      simp only [List.mem_cons, List.mem_singleton, List.not_mem_nil, or_false] at hp
      rcases hp with rfl | rfl
      · exact ⟨plain_code, fun tv h => by cases h; exact reads_int _ _⟩
      · exact ⟨plain_message, fun tv h => by cases h; exact reads_string _ _⟩)
    hd f (c :: X) (fun _ => by simp [fieldMembers]; omega)
  refine ⟨h, skipSpace_cons _ _ (by decide)⟩

theorem parseJSON_object (text : GoString) (v : JSON) (tail : GoString)
    (ht : tail = [] ∨ tail = [0x0A])
    (h : ∀ X, parseValue (text.length + tail.length + 1) 0 (text ++ X) = some (v, X))
    (h0 : skipSpace (text ++ tail) = text ++ tail) :
    parseJSON (text ++ tail) = some v := by
  simp only [parseJSON, h0, List.length_append, h tail]
  rcases ht with rfl | rfl <;> rfl


theorem storeString_appendString (cur s : GoString) (h : validString s = true) :
    storeString cur (.str (appendStringBody s.length s)) = some s := by
  simp only [storeString]
  exact unquote_appendStringBody s h

theorem storeInt_formatInt (cur n : Int) (h : inInt64 n = true) :
    storeInt cur (.num (formatInt n)) = some n := by
  simp only [inInt64, decide_eq_true_eq] at h
  simp only [storeInt]
  exact parseInt64_formatInt n h.1 h.2

theorem storeError_marshalError (e : operationError) (h : e.clean = true) :
    storeError none
      (.obj [(lit "code", .num (formatInt e.Code)),
        (lit "message", .str (appendStringBody e.Message.length e.Message))]) = some (some e) := by
  simp only [operationError.clean, Bool.and_eq_true] at h
  have k1 : keyIs (lit "code") (lit "code") = true := by decide
  have k2 : keyIs (lit "code") (lit "message") = false := by decide
  have k3 : keyIs (lit "message") (lit "message") = true := by decide
  simp only [storeError, Option.getD_none, decodeMembers, setErrorField, k1, k2, k3, if_true,
    Bool.false_eq_true, if_false, storeInt_formatInt _ _ h.1, Option.map_some',
    storeString_appendString _ _ h.2]

theorem encodeFields_length (next : Nat) (name v : GoString)
    (rest : List (GoString × Option GoString)) :
    4 + name.length ≤ (encodeFields next ((name, some v) :: rest)).length := by
  simp only [encodeFields, List.length_cons, List.length_append]
  omega

theorem fieldMembers_length (fs : List (GoString × Option (GoString × JSON))) :
    (fieldMembers fs).length ≤ fs.length :=
  List.length_filterMap_le _ _

/-- Round trip of an `initResponse`. -/
theorem unmarshalInit_marshalInit (r : initResponse) (hr : r.clean = true) (tail : GoString)
    (ht : tail = [] ∨ tail = [0x0A]) :
    unmarshalInit (marshalInit r ++ tail) = some r := by
  rcases r with ⟨_ | e⟩
  · rcases ht with rfl | rfl <;> decide
  · simp only [initResponse.clean] at hr
    have hp := parseJSON_object (marshalInit ⟨some e⟩)
      (.obj [(lit "error", .obj [(lit "code", .num (formatInt e.Code)),
        (lit "message", .str (appendStringBody e.Message.length e.Message))])]) tail ht
      (fun X => by
        have h := parseValue_encodeFields 4 0
          [(lit "error", some (marshalError e, .obj [(lit "code", .num (formatInt e.Code)),
            (lit "message", .str (appendStringBody e.Message.length e.Message))]))]
          (by
            intro p hp
            simp only [List.mem_singleton] at hp
            subst hp
            exact ⟨plain_error, fun tv h => by cases h; exact reads_error _ _ (by decide)⟩)
          (by decide) ((marshalInit ⟨some e⟩).length + tail.length) X
          (fun _ => by
            have h1 := encodeFields_length 0x7B (lit "error") (marshalError e) []
            have h2 := fieldMembers_length [(lit "error", some (marshalError e,
              JSON.obj [(lit "code", .num (formatInt e.Code)),
                (lit "message", .str (appendStringBody e.Message.length e.Message))]))]
            have h3 : (lit "error").length = 5 := by decide
            simp only [List.length_singleton] at h2
            simp only [marshalInit, Option.map_some']
            omega)
        exact h)
      (skipSpace_cons _ _ (by decide))
    have k1 : keyIs (lit "error") (lit "error") = true := by decide
    simp only [unmarshalInit, unmarshalStruct, hp, decodeMembers, setInitField, k1, if_true,
      storeError_marshalError e hr, Option.map_some']


theorem marshalTransfer_eq (r : transferResponse) :
    marshalTransfer r = encodeFields 0x7B (fieldTexts (transferFields r)) := by
  simp only [marshalTransfer, transferFields, fieldTexts, List.map_cons, List.map_nil,
    Option.map_some', Option.map_map]
  by_cases h : r.Path = []
  · simp only [h, if_true, Option.map_none']; rfl
  · simp only [h, if_false, Option.map_some']; rfl

theorem parseJSON_marshalTransfer (r : transferResponse) (tail : GoString)
    (ht : tail = [] ∨ tail = [0x0A]) :
    parseJSON (marshalTransfer r ++ tail) = some (.obj (fieldMembers (transferFields r))) := by
  refine parseJSON_object _ _ tail ht (fun X => ?_) ?_
  · rw [marshalTransfer_eq]
    refine parseValue_encodeFields 4 0 (transferFields r) ?_ (by decide) _ X (fun _ => ?_)
    · intro p hp
      simp only [transferFields, List.mem_cons, List.mem_singleton, List.not_mem_nil,
        or_false] at hp
      rcases hp with rfl | rfl | rfl | rfl
      · exact ⟨plain_event, fun tv h => by
          cases h; exact (reads_string _ _).mono (by decide)⟩
      · exact ⟨plain_oid, fun tv h => by cases h; exact (reads_string _ _).mono (by decide)⟩
      · refine ⟨plain_path, fun tv h => ?_⟩
        by_cases hp : r.Path = []
        · simp [hp] at h
        · simp only [hp, if_false, Option.some.injEq] at h
          subst h
          exact (reads_string _ _).mono (by decide)
      · refine ⟨plain_error, fun tv h => ?_⟩
        cases he : r.Error with
        | none => simp [he] at h
        | some e =>
          simp only [he, Option.map_some', Option.some.injEq] at h
          subst h
          exact reads_error _ _ (by decide)
    · have h1 := encodeFields_length 0x7B (lit "event") (appendString r.Event)
        (fieldTexts (transferFields r)).tail
      have h2 := fieldMembers_length (transferFields r)
      have h3 : (lit "event").length = 5 := by decide
      have h4 : (transferFields r).length = 4 := rfl
      have h5 : encodeFields 0x7B (fieldTexts (transferFields r))
          = encodeFields 0x7B ((lit "event", some (appendString r.Event))
              :: (fieldTexts (transferFields r)).tail) := rfl
      rw [h5]
      omega
  · rw [marshalTransfer_eq]
    exact skipSpace_cons _ _ (by decide)


theorem storeError_errorTree (e : operationError) (h : e.clean = true) :
    storeError none (errorTree e) = some (some e) :=
  storeError_marshalError e h

/-- Round trip of a `transferResponse`. -/
theorem unmarshalTransfer_marshalTransfer (r : transferResponse) (hr : r.clean = true)
    (tail : GoString) (ht : tail = [] ∨ tail = [0x0A]) :
    unmarshalTransfer (marshalTransfer r ++ tail) = some r := by
  have k1 : keyIs (lit "event") (lit "event") = true := by decide
  have k2 : keyIs (lit "event") (lit "oid") = false := by decide
  have k3 : keyIs (lit "oid") (lit "oid") = true := by decide
  have k4 : keyIs (lit "event") (lit "path") = false := by decide
  have k5 : keyIs (lit "oid") (lit "path") = false := by decide
  have k6 : keyIs (lit "path") (lit "path") = true := by decide
  have k7 : keyIs (lit "event") (lit "error") = false := by decide
  have k8 : keyIs (lit "oid") (lit "error") = false := by decide
  have k9 : keyIs (lit "path") (lit "error") = false := by decide
  have k10 : keyIs (lit "error") (lit "error") = true := by decide
  simp only [unmarshalTransfer, unmarshalStruct, parseJSON_marshalTransfer r tail ht]
  rcases r with ⟨ev, oid, path, err⟩
  simp only [transferResponse.clean, Bool.and_eq_true] at hr
  obtain ⟨⟨⟨h1, h2⟩, h3⟩, h4⟩ := hr
  by_cases hp : path = []
  · subst hp
    cases err with
    | none =>
      simp only [transferFields, fieldMembers, List.filterMap_cons, Option.map_some',
        if_true, Option.map_none', List.filterMap_nil, decodeMembers, setTransferField,
        k1, k2, k3, Bool.false_eq_true, if_false, storeString_appendString _ _ h1,
        storeString_appendString _ _ h2]
    | some e =>
      simp only [transferFields, fieldMembers, List.filterMap_cons, Option.map_some',
        if_true, Option.map_none', List.filterMap_nil, decodeMembers, setTransferField,
        k1, k2, k3, k7, k8, k9, k10, Bool.false_eq_true, if_false,
        storeString_appendString _ _ h1, storeString_appendString _ _ h2,
        storeError_errorTree e h4]
  · cases err with
    | none =>
      simp only [transferFields, fieldMembers, List.filterMap_cons, Option.map_some',
        hp, if_true, Option.map_none', List.filterMap_nil, decodeMembers, setTransferField,
        k1, k2, k3, k4, k5, k6, Bool.false_eq_true, if_false, storeString_appendString _ _ h1,
        storeString_appendString _ _ h2, storeString_appendString _ _ h3]
    | some e =>
      simp only [transferFields, fieldMembers, List.filterMap_cons, Option.map_some',
        hp, if_true, Option.map_none', List.filterMap_nil, decodeMembers, setTransferField,
        k1, k2, k3, k4, k5, k6, k7, k8, k9, k10, Bool.false_eq_true, if_false,
        storeString_appendString _ _ h1, storeString_appendString _ _ h2,
        storeString_appendString _ _ h3, storeError_errorTree e h4]

theorem parseJSON_marshalProgress (r : progressResponse) (tail : GoString)
    (ht : tail = [] ∨ tail = [0x0A]) :
    parseJSON (marshalProgress r ++ tail) = some (.obj (fieldMembers (progressFields r))) := by
  have e : marshalProgress r = encodeFields 0x7B (fieldTexts (progressFields r)) := rfl
  refine parseJSON_object _ _ tail ht (fun X => ?_) ?_
  · rw [e]
    refine parseValue_encodeFields 1 0 (progressFields r) ?_ (by decide) _ X (fun _ => ?_)
    · intro p hp
      simp only [progressFields, List.mem_cons, List.mem_singleton, List.not_mem_nil,
        or_false] at hp
      rcases hp with rfl | rfl | rfl | rfl
      · exact ⟨plain_event, fun tv h => by cases h; exact reads_string _ _⟩
      · exact ⟨plain_oid, fun tv h => by cases h; exact reads_string _ _⟩
      · exact ⟨plain_bytesSoFar, fun tv h => by cases h; exact reads_int _ _⟩
      · exact ⟨plain_bytesSinceLast, fun tv h => by cases h; exact reads_int _ _⟩
    · have h1 := encodeFields_length 0x7B (lit "event") (appendString r.Event)
        (fieldTexts (progressFields r)).tail
      have h2 := fieldMembers_length (progressFields r)
      have h3 : (lit "event").length = 5 := by decide
      have h4 : (progressFields r).length = 4 := rfl
      have h5 : encodeFields 0x7B (fieldTexts (progressFields r))
          = encodeFields 0x7B ((lit "event", some (appendString r.Event))
              :: (fieldTexts (progressFields r)).tail) := rfl
      rw [h5]
      omega
  · rw [e]
    exact skipSpace_cons _ _ (by decide)

/-- Round trip of a `progressResponse`. -/
theorem unmarshalProgress_marshalProgress (r : progressResponse) (hr : r.clean = true)
    (tail : GoString) (ht : tail = [] ∨ tail = [0x0A]) :
    unmarshalProgress (marshalProgress r ++ tail) = some r := by
  have k1 : keyIs (lit "event") (lit "event") = true := by decide
  have k2 : keyIs (lit "event") (lit "oid") = false := by decide
  have k3 : keyIs (lit "oid") (lit "oid") = true := by decide
  have k4 : keyIs (lit "event") (lit "bytesSoFar") = false := by decide
  have k5 : keyIs (lit "oid") (lit "bytesSoFar") = false := by decide
  have k6 : keyIs (lit "bytesSoFar") (lit "bytesSoFar") = true := by decide
  have k7 : keyIs (lit "event") (lit "bytesSinceLast") = false := by decide
  have k8 : keyIs (lit "oid") (lit "bytesSinceLast") = false := by decide
  have k9 : keyIs (lit "bytesSoFar") (lit "bytesSinceLast") = false := by decide
  have k10 : keyIs (lit "bytesSinceLast") (lit "bytesSinceLast") = true := by decide
  simp only [unmarshalProgress, unmarshalStruct, parseJSON_marshalProgress r tail ht]
  rcases r with ⟨ev, oid, a, b⟩
  simp only [progressResponse.clean, Bool.and_eq_true] at hr
  obtain ⟨⟨⟨h1, h2⟩, h3⟩, h4⟩ := hr
  simp only [progressFields, fieldMembers, List.filterMap_cons, Option.map_some',
    List.filterMap_nil, decodeMembers, setProgressField,
    k1, k2, k3, k4, k5, k6, k7, k8, k9, k10, Bool.false_eq_true, if_false, if_true,
    storeString_appendString _ _ h1, storeString_appendString _ _ h2,
    storeInt_formatInt _ _ h3, storeInt_formatInt _ _ h4]

/-! ## Properties: the loop and the handlers -/


theorem quiet_writeToStderr (msg : GoString) (w : World) :
    (writeToStderr msg w).quiet = w.quiet := by
  simp [writeToStderr, World.quiet]

theorem sendResponse_congr (env : Env) (r : response) (w1 w2 : World)
    (h : w1.quiet = w2.quiet) :
    (sendResponse env r w1).1.quiet = (sendResponse env r w2).1.quiet ∧
    (sendResponse env r w1).2 = (sendResponse env r w2).2 := by
  cases w1; cases w2
  simp only [World.quiet, World.mk.injEq] at h
  obtain ⟨h1, h2, -, h3, h4, h5⟩ := h
  subst h1 h2 h3 h4 h5
  simp only [sendResponse]
  split <;> simp [World.quiet, writeToStderr]


theorem sendTransferError_congr (env : Env) (oid : GoString) (code : Int) (m : GoString)
    (w1 w2 : World) (h : w1.quiet = w2.quiet) :
    (sendTransferError env oid code m w1).quiet = (sendTransferError env oid code m w2).quiet := by
  have hs := sendResponse_congr env (.transfer ⟨lit "complete", oid, [], some ⟨code, m⟩⟩) w1 w2 h
  simp only [sendTransferError]
  rcases h1 : sendResponse env (.transfer ⟨lit "complete", oid, [], some ⟨code, m⟩⟩) w1
    with ⟨a1, e1⟩
  rcases h2 : sendResponse env (.transfer ⟨lit "complete", oid, [], some ⟨code, m⟩⟩) w2
    with ⟨a2, e2⟩
  rw [h1, h2] at hs
  obtain ⟨hq, he⟩ := hs
  simp only at hq he
  subst he
  cases e1 <;> simp [quiet_writeToStderr, hq]

theorem rsync_congr (env : Env) (args : List GoString) (w1 w2 : World)
    (h : w1.quiet = w2.quiet) :
    (rsync env args w1).1.quiet = (rsync env args w2).1.quiet ∧
    (rsync env args w1).2 = (rsync env args w2).2 := by
  cases w1; cases w2
  simp only [World.quiet, World.mk.injEq] at h
  obtain ⟨h1, h2, -, h3, h4, h5⟩ := h
  subst h1 h2 h3 h4 h5
  simp only [rsync]
  split <;> simp [World.quiet]

theorem quiet_remote (w1 w2 : World) (h : w1.quiet = w2.quiet) : w1.remote = w2.remote := by
  have := congrArg World.remote h
  simpa [World.quiet] using this

theorem quiet_temps (w1 w2 : World) (h : w1.quiet = w2.quiet) : w1.temps = w2.temps := by
  have := congrArg World.temps h
  simpa [World.quiet] using this

theorem quiet_set_temps (w1 w2 : World) (n : Nat) (h : w1.quiet = w2.quiet) :
    ({ w1 with temps := n } : World).quiet = ({ w2 with temps := n } : World).quiet := by
  cases w1; cases w2
  simp only [World.quiet, World.mk.injEq] at h ⊢
  simp [h]

theorem quiet_set_remote (w1 w2 : World) (a : GoString) (h : w1.quiet = w2.quiet) :
    ({ w1 with remote := a } : World).quiet = ({ w2 with remote := a } : World).quiet := by
  cases w1; cases w2
  simp only [World.quiet, World.mk.injEq] at h ⊢
  simp [h]

theorem performUpload_congr (env : Env) (oid : GoString) (size : Int) (a : Option action)
    (p : GoString) (w1 w2 : World) (h : w1.quiet = w2.quiet) :
    (performUpload env oid size a p w1).quiet = (performUpload env oid size a p w2).quiet := by
  have hr := quiet_remote w1 w2 h
  have hs := rsync_congr env [p, remoteFile w2 oid] w1 w2 h
  simp only [performUpload, remoteFile, hr] at hs ⊢
  rcases h1 : rsync env [p, w2.remote ++ lit "/" ++ oid] w1 with ⟨a1, e1⟩
  rcases h2 : rsync env [p, w2.remote ++ lit "/" ++ oid] w2 with ⟨a2, e2⟩
  rw [h1, h2] at hs
  obtain ⟨hq, he⟩ := hs
  simp only at hq he
  subst he
  cases e1 with
  | some e => exact sendTransferError_congr env oid 5 e a1 a2 hq
  | none =>
    have hs := sendResponse_congr env (.transfer ⟨lit "complete", oid, [], none⟩) a1 a2 hq
    simp only
    rcases h3 : sendResponse env (.transfer ⟨lit "complete", oid, [], none⟩) a1 with ⟨b1, f1⟩
    rcases h4 : sendResponse env (.transfer ⟨lit "complete", oid, [], none⟩) a2 with ⟨b2, f2⟩
    rw [h3, h4] at hs
    obtain ⟨hq, he⟩ := hs
    simp only at hq he
    subst he
    cases f1 <;> simp [quiet_writeToStderr, hq]

theorem quiet_eq_setErr (w1 w2 : World) (h : w1.quiet = w2.quiet) :
    w1 = { w2 with err := w1.err } := by
  cases w1; cases w2
  simp only [World.quiet, World.mk.injEq] at h ⊢
  simp [h]

theorem performDownload_congr (env : Env) (oid : GoString) (size : Int) (a : Option action)
    (w1 w2 : World) (h : w1.quiet = w2.quiet) :
    (performDownload env oid size a w1).quiet = (performDownload env oid size a w2).quiet := by
  rw [quiet_eq_setErr w1 w2 h]
  generalize w1.err = e
  simp only [performDownload, remoteFile]
  have h' : (World.mk w2.remote w2.out e w2.calls (w2.temps + 1) w2.writes).quiet
      = ({ w2 with temps := w2.temps + 1 } : World).quiet := by
    simp [World.quiet]
  generalize World.mk w2.remote w2.out e w2.calls (w2.temps + 1) w2.writes = v1 at h' ⊢
  generalize ({ w2 with temps := w2.temps + 1 } : World) = v2 at h' ⊢
  cases env.tempFile w2.temps with
  | error e => exact sendTransferError_congr env oid 3 e _ _ h'
  | ok f =>
    have hs := rsync_congr env [w2.remote ++ lit "/" ++ oid, f] _ _ h'
    simp only
    rcases h1 : rsync env [w2.remote ++ lit "/" ++ oid, f] v1 with ⟨a1, e1⟩
    rcases h2 : rsync env [w2.remote ++ lit "/" ++ oid, f] v2 with ⟨a2, e2⟩
    rw [h1, h2] at hs
    obtain ⟨hq, he⟩ := hs
    simp only at hq he
    subst he
    cases e1 with
    | some e => exact sendTransferError_congr env oid 4 e a1 a2 hq
    | none =>
      have hs := sendResponse_congr env (.transfer ⟨lit "complete", oid, f, none⟩) a1 a2 hq
      simp only
      rcases h3 : sendResponse env (.transfer ⟨lit "complete", oid, f, none⟩) a1 with ⟨b1, f1⟩
      rcases h4 : sendResponse env (.transfer ⟨lit "complete", oid, f, none⟩) a2 with ⟨b2, f2⟩
      rw [h3, h4] at hs
      obtain ⟨hq, he⟩ := hs
      simp only at hq he
      subst he
      cases f1 <;> simp [quiet_writeToStderr, hq]

theorem initAgent_congr (env : Env) (w1 w2 : World) (h : w1.quiet = w2.quiet) :
    (initAgent env w1).map World.quiet = (initAgent env w2).map World.quiet := by
  simp only [initAgent]
  cases env.args[1]? with
  | none => rfl
  | some a =>
    have h' := quiet_set_remote w1 w2 a h
    simp only
    split
    · simpa using (sendResponse_congr env _ _ _ h').1
    · simpa using (sendResponse_congr env _ _ _ h').1

theorem handleLine_congr (env : Env) (line : GoString) (w1 w2 : World)
    (h : w1.quiet = w2.quiet) :
    (handleLine env line w1).map World.quiet = (handleLine env line w2).map World.quiet := by
  simp only [handleLine]
  cases env.unmarshal line with
  | none => simpa [quiet_writeToStderr] using h
  | some req =>
    simp only
    split
    · exact initAgent_congr env _ _ (by simpa [quiet_writeToStderr] using h)
    split
    · simpa using performDownload_congr env _ _ _ _ _ (by simpa [quiet_writeToStderr] using h)
    split
    · simpa using performUpload_congr env _ _ _ _ _ _ (by simpa [quiet_writeToStderr] using h)
    split
    · simpa [quiet_writeToStderr] using h
    · simpa using h

theorem main_congr (env : Env) (lines : List GoString) :
    ∀ w1 w2 : World, w1.quiet = w2.quiet →
      (main env lines w1).map World.quiet = (main env lines w2).map World.quiet := by
  induction lines with
  | nil => intro w1 w2 h; simpa [main] using h
  | cons l ls ih =>
    intro w1 w2 h
    have hl := handleLine_congr env (dropCR l) w1 w2 h
    simp only [main]
    by_cases hlen : l.length ≥ maxScanTokenSize
    · rw [if_pos hlen, if_pos hlen]
      simpa using h
    · rw [if_neg hlen, if_neg hlen]
      cases h1 : handleLine env (dropCR l) w1 <;> cases h2 : handleLine env (dropCR l) w2 <;>
        simp_all
      exact ih _ _ hl

/-- A line that the scanner reads and that only writes a diagnostic can be left
out of the input. -/
theorem main_skip (env : Env) (pre post : List GoString) (line : GoString)
    (hlen : line.length < maxScanTokenSize)
    (hq : ∀ w, (handleLine env (dropCR line) w).map World.quiet = some w.quiet) :
    ∀ w, (main env (pre ++ line :: post) w).map World.quiet
      = (main env (pre ++ post) w).map World.quiet := by
  induction pre with
  | nil =>
    intro w
    simp only [List.nil_append, main]
    rw [if_neg (by omega)]
    have h1 := hq w
    cases h2 : handleLine env (dropCR line) w with
    | none => simp [h2] at h1
    | some w2 =>
      simp only [h2, Option.map_some', Option.some.injEq] at h1
      exact main_congr env post w2 w h1
  | cons l ls ih =>
    intro w
    simp only [List.cons_append, main]
    by_cases hl : l.length ≥ maxScanTokenSize
    · rw [if_pos hl, if_pos hl]
    · rw [if_neg hl, if_neg hl]
      cases handleLine env (dropCR l) w with
      | none => rfl
      | some w1 => exact ih w1

theorem writeToStderr_newline (a : GoString) (w : World) :
    writeToStderr (a ++ [0x0A]) w = { w with err := w.err ++ [a ++ [0x0A]] } := by
  have h : [0x0A].isSuffixOf (a ++ [0x0A]) = true := by
    simp
  simp only [writeToStderr, h, if_true]

theorem handleLine_unparsed (env : Env) (line : GoString) (w : World)
    (h : env.unmarshal line = none) :
    handleLine env line w
      = some { w with err := w.err ++ [lit "Unable to parse request: " ++ line ++ [0x0A]] } := by
  simp only [handleLine, h, writeToStderr_newline]

theorem main_cons_short (env : Env) (raw : GoString) (rest : List GoString) (w w1 : World)
    (hlen : raw.length < maxScanTokenSize) (h : handleLine env (dropCR raw) w = some w1) :
    main env (raw :: rest) w = main env rest w1 := by
  simp only [main]
  rw [if_neg (by omega), h]

/-- C6 (amended): a raw line shorter than the limit of the scanner
(`maxScanTokenSize`, 65536 bytes) whose text `json.Unmarshal` rejects makes the
loop write one diagnostic and nothing else: no response line, no run of rsync,
no change of `remote`; the loop goes on with the next line; so putting such a
line anywhere into the input changes nothing but the diagnostics (also whether
the run ends normally). -/
theorem malformed_line_is_skipped (env : Env) (bad : GoString)
    (hlen : bad.length < maxScanTokenSize) (hbad : env.unmarshal (dropCR bad) = none) :
    (∀ w, handleLine env (dropCR bad) w
        = some { w with
                 err := w.err ++ [lit "Unable to parse request: " ++ dropCR bad ++ [0x0A]] }) ∧
    (∀ rest w, main env (bad :: rest) w
        = main env rest
            { w with
              err := w.err ++ [lit "Unable to parse request: " ++ dropCR bad ++ [0x0A]] }) ∧
    (∀ pre post w,
      (main env (pre ++ bad :: post) w).map World.quiet
        = (main env (pre ++ post) w).map World.quiet) := by
  refine ⟨fun w => handleLine_unparsed env (dropCR bad) w hbad, fun rest w => ?_,
    fun pre post w => ?_⟩
  · exact main_cons_short env bad rest w _ hlen (handleLine_unparsed env (dropCR bad) w hbad)
  · refine main_skip env pre post bad hlen (fun v => ?_) w
    rw [handleLine_unparsed env (dropCR bad) v hbad]
    simp [World.quiet]

theorem handleLine_terminate (env : Env) (line : GoString) (w : World)
    (h : hasEvent env (lit "terminate") line = true) :
    handleLine env line w
      = some { w with err := w.err ++ [lit "Terminating rsync agent gracefully.\n"] } := by
  simp only [hasEvent] at h
  cases hu : env.unmarshal line with
  | none => simp [hu] at h
  | some req =>
    simp only [hu, decide_eq_true_eq] at h
    have h1 : lit "terminate" ≠ lit "init" := by decide
    have h2 : lit "terminate" ≠ lit "download" := by decide
    have h3 : lit "terminate" ≠ lit "upload" := by decide
    have h4 : [0x0A].isSuffixOf (lit "Terminating rsync agent gracefully.\n") = true := by
      decide
    simp [handleLine, hu, h, h1, h2, h3, writeToStderr, h4]

theorem main_without_terminate (env : Env) (lines : List GoString) :
    ∀ w, (main env lines w).map World.quiet
      = (main env (lines.filter (fun l => !isRequest env (lit "terminate") l)) w).map
          World.quiet := by
  induction lines with
  | nil => intro w; rfl
  | cons l ls ih =>
    intro w
    by_cases hlen : l.length ≥ maxScanTokenSize
    · have hr : isRequest env (lit "terminate") l = false := by
        simp only [isRequest, Bool.and_eq_false_imp, decide_eq_true_eq]
        intro h; omega
      simp only [List.filter, hr, Bool.not_false, main, if_pos hlen]
    · cases ht : hasEvent env (lit "terminate") (dropCR l) with
      | true =>
        have hr : isRequest env (lit "terminate") l = true := by
          simp only [isRequest, ht, Bool.and_true, decide_eq_true_eq]
          omega
        simp only [List.filter, hr, Bool.not_true]
        rw [main_cons_short env l ls w _ (by omega) (handleLine_terminate env (dropCR l) w ht),
          ← ih w]
        exact main_congr env ls _ _ (by simp [World.quiet])
      | false =>
        have hr : isRequest env (lit "terminate") l = false := by
          simp only [isRequest, ht, Bool.and_false]
        simp only [List.filter, hr, Bool.not_false, main, if_neg hlen]
        cases handleLine env (dropCR l) w with
        | none => rfl
        | some w1 => exact ih w1

/-- C1 (amended): a terminate line (a raw line shorter than the limit of the
scanner, `maxScanTokenSize`, whose text is a request with event `terminate`)
makes the loop write one diagnostic and nothing else: no response line, no run
of rsync, no change of `remote`.  The loop does not exit on it but goes on with
the next line: the run of any input equals, diagnostics apart, the run of the
input without its terminate lines, so the responses emitted are those of all
the other lines, the ones after a terminate line included. -/
theorem terminate_line_only_logs (env : Env) (line : GoString)
    (hlen : line.length < maxScanTokenSize)
    (hline : hasEvent env (lit "terminate") (dropCR line) = true) :
    (∀ w, handleLine env (dropCR line) w
        = some { w with err := w.err ++ [lit "Terminating rsync agent gracefully.\n"] }) ∧
    (∀ rest w, main env (line :: rest) w
        = main env rest
            { w with err := w.err ++ [lit "Terminating rsync agent gracefully.\n"] }) ∧
    (∀ pre post w,
      (main env (pre ++ line :: post) w).map World.quiet
        = (main env (pre ++ post) w).map World.quiet) ∧
    (∀ lines w,
      (main env lines w).map World.quiet
        = (main env (lines.filter (fun l => !isRequest env (lit "terminate") l)) w).map
            World.quiet) := by
  refine ⟨fun w => handleLine_terminate env (dropCR line) w hline, fun rest w => ?_,
    fun pre post w => ?_, main_without_terminate env⟩
  · exact main_cons_short env line rest w _ hlen (handleLine_terminate env (dropCR line) w hline)
  · refine main_skip env pre post line hlen (fun v => ?_) w
    rw [handleLine_terminate env (dropCR line) v hline]
    simp [World.quiet]

theorem sendResponse_out (env : Env) (r : response) (w : World) :
    (sendResponse env r w).1.out
      = if env.write w.writes (marshal r ++ [0x0A]) = none then w.out ++ [marshal r ++ [0x0A]]
        else w.out := by
  simp only [sendResponse]
  cases h : env.write w.writes (marshal r ++ [0x0A]) with
  | none => rw [if_pos rfl]; rfl
  | some e => rw [if_neg (by simp)]

theorem sendResponse_writes (env : Env) (r : response) (w : World) :
    (sendResponse env r w).1.writes = w.writes + 1 := by
  simp only [sendResponse]
  cases env.write w.writes (marshal r ++ [0x0A]) <;> rfl

theorem sendTransferError_out (env : Env) (oid : GoString) (c : Int) (m : GoString)
    (w : World) :
    (sendTransferError env oid c m w).out
      = (sendResponse env (.transfer ⟨lit "complete", oid, [], some ⟨c, m⟩⟩) w).1.out ∧
    (sendTransferError env oid c m w).writes
      = (sendResponse env (.transfer ⟨lit "complete", oid, [], some ⟨c, m⟩⟩) w).1.writes := by
  simp only [sendTransferError]
  rcases sendResponse env (.transfer ⟨lit "complete", oid, [], some ⟨c, m⟩⟩) w with ⟨v, _ | e⟩
  · exact ⟨rfl, rfl⟩
  · exact ⟨rfl, rfl⟩

/-- C2: for an init request, when the launch argument `os.Args[1]` exists,
`initAgent` hands exactly one `initResponse` to `sendResponse`, with exactly
one call of `Write`; its line is emitted when the writer accepts it.  The
response has an error exactly when the launch argument is the empty string; the
error code is then 3, and for a non-empty argument the response has no error
and its line is the empty JSON object. -/
theorem initAgent_response (env : Env) (w : World) (a : GoString)
    (harg : env.args[1]? = some a) :
    ∃ resp : initResponse,
      initAgent env w = some (sendResponse env (.init resp) { w with remote := a }).1 ∧
      (∀ w1, initAgent env w = some w1 →
        w1.writes = w.writes + 1 ∧
        w1.out = if env.write w.writes (marshalInit resp ++ [0x0A]) = none
          then w.out ++ [marshalInit resp ++ [0x0A]] else w.out) ∧
      (resp.Error ≠ none ↔ a = []) ∧
      (a = [] → ∃ m, resp.Error = some ⟨3, m⟩) ∧
      (a ≠ [] → resp.Error = none ∧ marshalInit resp = lit "\x7b\x7d") ∧
      (∀ line req, env.unmarshal line = some req → req.Event = lit "init" →
        ∀ v, handleLine env line v = initAgent env
          (writeToStderr (lit "Initialising rsync agent for: " ++ req.Operation ++ [0x0A]) v)) := by
  have hline : ∀ line req, env.unmarshal line = some req → req.Event = lit "init" →
      ∀ v, handleLine env line v = initAgent env
        (writeToStderr (lit "Initialising rsync agent for: " ++ req.Operation ++ [0x0A]) v) := by
    intro line req hu he v
    simp only [handleLine, hu, he, if_true]
  have hsend : ∀ resp : initResponse, ∀ w1,
      some (sendResponse env (.init resp) { w with remote := a }).1 = some w1 →
      w1.writes = w.writes + 1 ∧
      w1.out = if env.write w.writes (marshalInit resp ++ [0x0A]) = none
        then w.out ++ [marshalInit resp ++ [0x0A]] else w.out := by
    intro resp w1 h
    simp only [Option.some.injEq] at h
    subst h
    exact ⟨sendResponse_writes env _ _, sendResponse_out env _ _⟩
  by_cases ha : a = []
  · have e : initAgent env w = some (sendResponse env
        (.init ⟨some ⟨3, lit "No remote specified when launching the process"⟩⟩)
        { w with remote := a }).1 := by
      simp only [initAgent, harg, ha, if_true]
    refine ⟨⟨some ⟨3, lit "No remote specified when launching the process"⟩⟩, e, ?_, ?_, ?_,
      ?_, hline⟩
    · intro w1 h1
      rw [e] at h1
      exact hsend _ w1 h1
    · simp [ha]
    · intro _; exact ⟨_, rfl⟩
    · intro h; exact absurd ha h
  · have e : initAgent env w = some (sendResponse env (.init ⟨none⟩) { w with remote := a }).1 := by
      simp only [initAgent, harg, ha, if_false]
    refine ⟨⟨none⟩, e, ?_, ?_, ?_, ?_, hline⟩
    · intro w1 h1
      rw [e] at h1
      exact hsend _ w1 h1
    · simp [ha]
    · intro h; exact absurd h ha
    · intro _; exact ⟨rfl, by decide⟩

@[simp] theorem writeToStderr_remote (m : GoString) (w : World) :
    (writeToStderr m w).remote = w.remote := rfl

@[simp] theorem writeToStderr_calls (m : GoString) (w : World) :
    (writeToStderr m w).calls = w.calls := rfl

@[simp] theorem sendResponse_remote (env : Env) (r : response) (w : World) :
    (sendResponse env r w).1.remote = w.remote := by
  simp only [sendResponse]; split <;> rfl

@[simp] theorem sendResponse_calls (env : Env) (r : response) (w : World) :
    (sendResponse env r w).1.calls = w.calls := by
  simp only [sendResponse]; split <;> rfl

@[simp] theorem sendTransferError_remote (env : Env) (oid : GoString) (c : Int) (m : GoString)
    (w : World) : (sendTransferError env oid c m w).remote = w.remote := by
  have h := sendResponse_remote env (.transfer ⟨lit "complete", oid, [], some ⟨c, m⟩⟩) w
  simp only [sendTransferError]
  split <;> simp_all

@[simp] theorem sendTransferError_calls (env : Env) (oid : GoString) (c : Int) (m : GoString)
    (w : World) : (sendTransferError env oid c m w).calls = w.calls := by
  have h := sendResponse_calls env (.transfer ⟨lit "complete", oid, [], some ⟨c, m⟩⟩) w
  simp only [sendTransferError]
  split <;> simp_all

@[simp] theorem rsync_remote (env : Env) (args : List GoString) (w : World) :
    (rsync env args w).1.remote = w.remote := by
  simp only [rsync]; split <;> rfl

@[simp] theorem rsync_calls (env : Env) (args : List GoString) (w : World) :
    (rsync env args w).1.calls = w.calls ++ [args] := by
  simp only [rsync]; split <;> rfl

theorem performUpload_remote_calls (env : Env) (oid : GoString) (size : Int)
    (a : Option action) (l : GoString) (w : World) :
    (performUpload env oid size a l w).remote = w.remote ∧
    (performUpload env oid size a l w).calls = w.calls ++ [[l, remoteFile w oid]] := by
  have h1 := rsync_remote env [l, remoteFile w oid] w
  have h2 := rsync_calls env [l, remoteFile w oid] w
  simp only [performUpload]
  rcases hr : rsync env [l, remoteFile w oid] w with ⟨w1, e1⟩
  rw [hr] at h1 h2
  simp only at h1 h2
  cases e1 with
  | some e => simp [h1, h2]
  | none =>
    have h3 := sendResponse_remote env (.transfer ⟨lit "complete", oid, [], none⟩) w1
    have h4 := sendResponse_calls env (.transfer ⟨lit "complete", oid, [], none⟩) w1
    simp only
    rcases hs : sendResponse env (.transfer ⟨lit "complete", oid, [], none⟩) w1 with ⟨w2, e2⟩
    rw [hs] at h3 h4
    simp only at h3 h4
    cases e2 <;> simp [h1, h2, h3, h4]

theorem performDownload_remote (env : Env) (oid : GoString) (size : Int)
    (a : Option action) (w : World) :
    (performDownload env oid size a w).remote = w.remote := by
  simp only [performDownload]
  cases env.tempFile w.temps with
  | error e => simp
  | ok f =>
    simp only
    generalize hv : ({ w with temps := w.temps + 1 } : World) = v
    have hvr : v.remote = w.remote := by rw [← hv]
    have h1 := rsync_remote env [remoteFile v oid, f] v
    rcases hr : rsync env [remoteFile v oid, f] v with ⟨w1, e1⟩
    rw [hr] at h1
    simp only at h1
    cases e1 with
    | some e => simp [h1, hvr]
    | none =>
      have h3 := sendResponse_remote env (.transfer ⟨lit "complete", oid, f, none⟩) w1
      simp only
      rcases hs : sendResponse env (.transfer ⟨lit "complete", oid, f, none⟩) w1 with ⟨w2, e2⟩
      rw [hs] at h3
      simp only at h3
      cases e2 <;> simp [h1, h3, hvr]

theorem performDownload_calls (env : Env) (oid : GoString) (size : Int)
    (a : Option action) (w : World) (p : GoString) (htmp : env.tempFile w.temps = .ok p) :
    (performDownload env oid size a w).calls = w.calls ++ [[remoteFile w oid, p]] := by
  simp only [performDownload, htmp]
  generalize hv : ({ w with temps := w.temps + 1 } : World) = v
  have hvr : remoteFile v oid = remoteFile w oid := by rw [← hv]; rfl
  have hvc : v.calls = w.calls := by rw [← hv]
  have h1 := rsync_calls env [remoteFile v oid, p] v
  rcases hr : rsync env [remoteFile v oid, p] v with ⟨w1, e1⟩
  rw [hr] at h1
  simp only at h1
  cases e1 with
  | some e => simp [h1, hvr, hvc]
  | none =>
    have h3 := sendResponse_calls env (.transfer ⟨lit "complete", oid, p, none⟩) w1
    simp only
    rcases hs : sendResponse env (.transfer ⟨lit "complete", oid, p, none⟩) w1 with ⟨w2, e2⟩
    rw [hs] at h3
    simp only at h3
    cases e2 <;> simp [h1, h3, hvr, hvc]

/-- C7: the transfer primitive is addressed at the stored remote, a slash and
the request's oid.  A download whose temporary file was made with name `p` runs
rsync once, with the two arguments `remote/oid` and `p`; an upload of `l` runs
it once with `l` and `remote/oid`.  The size and the action of the request play
no part in either handler. -/
theorem transfer_arguments (env : Env) (oid : GoString) (size : Int) (a : Option action)
    (l : GoString) (w : World) (p : GoString) (htmp : env.tempFile w.temps = .ok p) :
    (performDownload env oid size a w).calls = w.calls ++ [[w.remote ++ lit "/" ++ oid, p]] ∧
    (performUpload env oid size a l w).calls = w.calls ++ [[l, w.remote ++ lit "/" ++ oid]] ∧
    (∀ size2 a2, performDownload env oid size2 a2 w = performDownload env oid size a w) ∧
    (∀ size2 a2, performUpload env oid size2 a2 l w = performUpload env oid size a l w) :=
  ⟨performDownload_calls env oid size a w p htmp,
   (performUpload_remote_calls env oid size a l w).2,
   fun _ _ => rfl, fun _ _ => rfl⟩

theorem handleLine_remote (env : Env) (a : GoString) (harg : env.args[1]? = some a)
    (line : GoString) (w : World) :
    ∃ w1, handleLine env line w = some w1 ∧
      w1.remote = if hasEvent env (lit "init") line then a else w.remote := by
  cases hu : env.unmarshal line with
  | none =>
    simp only [handleLine, hasEvent, hu]
    exact ⟨_, rfl, by simp⟩
  | some req =>
    simp only [handleLine, hasEvent, hu]
    by_cases h1 : req.Event = lit "init"
    · simp only [h1, if_true, initAgent, harg, decide_True]
      split <;> exact ⟨_, rfl, by simp⟩
    · simp only [h1, if_false, decide_False]
      split
      · exact ⟨_, rfl, by simp [performDownload_remote]⟩
      split
      · exact ⟨_, rfl, by simp [(performUpload_remote_calls _ _ _ _ _ _).1]⟩
      split
      · exact ⟨_, rfl, by simp⟩
      · exact ⟨_, rfl, by simp⟩

theorem handleLine_not_init (env : Env) (line : GoString) (w : World)
    (h : hasEvent env (lit "init") line = false) :
    ∃ w1, handleLine env line w = some w1 ∧ w1.remote = w.remote := by
  simp only [handleLine]
  simp only [hasEvent] at h
  cases hu : env.unmarshal line with
  | none => exact ⟨_, rfl, by simp⟩
  | some req =>
    simp only [hu, decide_eq_false_iff_not] at h
    simp only [h, if_false]
    split
    · exact ⟨_, rfl, by simp [performDownload_remote]⟩
    split
    · exact ⟨_, rfl, by simp [(performUpload_remote_calls _ _ _ _ _ _).1]⟩
    split
    · exact ⟨_, rfl, by simp⟩
    · exact ⟨_, rfl, by simp⟩

theorem main_remote_after_init (env : Env) (a : GoString) (harg : env.args[1]? = some a)
    (rest : List GoString) :
    ∀ w : World, w.remote = a → ∃ w2, main env rest w = some w2 ∧ w2.remote = a := by
  induction rest with
  | nil => intro w h; exact ⟨w, rfl, h⟩
  | cons l ls ih =>
    intro w h
    by_cases hlen : l.length ≥ maxScanTokenSize
    · exact ⟨w, by simp only [main]; rw [if_pos hlen], h⟩
    · obtain ⟨w1, h1, h2⟩ := handleLine_remote env a harg (dropCR l) w
      have h3 : w1.remote = a := by rw [h2]; split <;> simp [h]
      obtain ⟨w2, h4, h5⟩ := ih w1 h3
      exact ⟨w2, by rw [main_cons_short env l ls w w1 (by omega) h1, h4], h5⟩

theorem main_remote_before_init (env : Env) (pre : List GoString)
    (hpre : ∀ l ∈ pre, isRequest env (lit "init") l = false) :
    ∀ w : World, ∃ w2, main env pre w = some w2 ∧ w2.remote = w.remote := by
  induction pre with
  | nil => intro w; exact ⟨w, rfl, rfl⟩
  | cons l ls ih =>
    intro w
    by_cases hlen : l.length ≥ maxScanTokenSize
    · exact ⟨w, by simp only [main]; rw [if_pos hlen], rfl⟩
    · have hl : hasEvent env (lit "init") (dropCR l) = false := by
        have h := hpre l (by simp)
        simp only [isRequest, Bool.and_eq_false_imp, decide_eq_true_eq] at h
        exact h (by omega)
      obtain ⟨w1, h1, h2⟩ := handleLine_not_init env (dropCR l) w hl
      obtain ⟨w2, h4, h5⟩ := ih (fun x hx => hpre x (by simp [hx])) w1
      exact ⟨w2, by rw [main_cons_short env l ls w w1 (by omega) h1, h4], by rw [h5, h2]⟩

/-- C9: `remote` is empty at process start and stays empty while no init event
is handled; an init event sets it to the launch argument `os.Args[1]`; from
then on, whatever lines follow (init, download, upload, terminate, unknown or
malformed), the loop handles them all and `remote` after them is the value it
had right after that init.  The download and upload handlers leave it as it
is. -/
theorem remote_fixed_after_init (env : Env) (a : GoString) (harg : env.args[1]? = some a) :
    World.start.remote = [] ∧
    (∀ pre, (∀ l ∈ pre, isRequest env (lit "init") l = false) →
      ∃ w, main env pre World.start = some w ∧ w.remote = []) ∧
    (∀ line w, hasEvent env (lit "init") line = true →
      ∃ w1, handleLine env line w = some w1 ∧ w1.remote = a ∧
        ∀ rest, ∃ w2, main env rest w1 = some w2 ∧ w2.remote = w1.remote) ∧
    (∀ oid size act path w,
      (performDownload env oid size act w).remote = w.remote ∧
      (performUpload env oid size act path w).remote = w.remote) := by
  refine ⟨rfl, fun pre hpre => ?_, fun line w hl => ?_, fun oid size act path w => ?_⟩
  · exact main_remote_before_init env pre hpre World.start
  · obtain ⟨w1, h1, h2⟩ := handleLine_remote env a harg line w
    rw [hl] at h2
    simp only [if_true] at h2
    refine ⟨w1, h1, h2, fun rest => ?_⟩
    obtain ⟨w2, h3, h4⟩ := main_remote_after_init env a harg rest w1 h2
    exact ⟨w2, h3, by rw [h4, h2]⟩
  · exact ⟨performDownload_remote env oid size act w,
      (performUpload_remote_calls env oid size act path w).1⟩


theorem rsync_eq (env : Env) (args : List GoString) (w : World) (out : GoString)
    (e : Option GoString) (h : env.exec w.calls.length args = (out, e)) :
    rsync env args w
      = (World.mk w.remote w.out w.err (w.calls ++ [args]) w.temps w.writes,
          e.map (fun err => rsyncError args err out)) := by
  simp only [rsync, h]
  cases e <;> rfl

theorem marshalTransfer_error_line (oid : GoString) (m : GoString) (c : Int) :
    marshalTransfer ⟨lit "complete", oid, [], some ⟨c, m⟩⟩
      = lit "\x7b\"event\":\"complete\",\"oid\":" ++ appendString oid
          ++ lit ",\"error\":\x7b\"code\":" ++ formatInt c ++ lit ",\"message\":"
          ++ appendString m ++ lit "\x7d\x7d" := by
  have h1 : lit "\x7b\"event\":\"complete\",\"oid\":"
      = 0x7B :: 0x22 :: (lit "event" ++ 0x22 :: 0x3A :: (appendString (lit "complete")
          ++ 0x2C :: 0x22 :: (lit "oid" ++ [0x22, 0x3A]))) := by decide
  have h2 : lit ",\"error\":\x7b\"code\":"
      = 0x2C :: 0x22 :: (lit "error" ++ 0x22 :: 0x3A :: 0x7B :: 0x22 :: (lit "code"
          ++ [0x22, 0x3A])) := by decide
  have h3 : lit ",\"message\":" = 0x2C :: 0x22 :: (lit "message" ++ [0x22, 0x3A]) := by decide
  have h4 : lit "\x7d\x7d" = [0x7D, 0x7D] := by decide
  rw [h1, h2, h3, h4]
  simp only [marshalTransfer, marshalError, encodeFields, if_true, Option.map_some',
    List.append_assoc, List.cons_append, List.nil_append, if_neg (by decide : ¬ (0x2C = 0x7B))]

theorem finish_out (p : World × Option GoString) (f : GoString → GoString) :
    (match p with
      | (w3, some e) => writeToStderr (f e) w3
      | (w3, none) => w3).out = p.1.out ∧
    (match p with
      | (w3, some e) => writeToStderr (f e) w3
      | (w3, none) => w3).writes = p.1.writes := by
  rcases p with ⟨v, _ | e⟩
  · exact ⟨rfl, rfl⟩
  · exact ⟨rfl, rfl⟩

/-- C4: a download with oid `o` whose temporary file was made with name `p`
hands exactly one response to the writer, with exactly one call of `Write`, and
its line is emitted when the writer accepts it: a transfer response with event
`complete` and oid `o`.  When rsync fails, the response has an error with code
4 whose message ends with the captured output of rsync, and an empty path, so
the line has no `path` key; when rsync succeeds the response has path `p` and
no error. -/
theorem performDownload_response (env : Env) (o : GoString) (size : Int) (a : Option action)
    (w : World) (p out : GoString) (e : Option GoString)
    (htmp : env.tempFile w.temps = .ok p)
    (hexec : env.exec w.calls.length [remoteFile w o, p] = (out, e)) :
    ∃ resp : transferResponse,
      (performDownload env o size a w).writes = w.writes + 1 ∧
      (performDownload env o size a w).out
        = (if env.write w.writes (marshalTransfer resp ++ [0x0A]) = none
            then w.out ++ [marshalTransfer resp ++ [0x0A]] else w.out) ∧
      resp.Event = lit "complete" ∧ resp.Oid = o ∧
      (∀ err, e = some err →
        resp.Error = some ⟨4, rsyncError [remoteFile w o, p] err out⟩ ∧
        out <:+ rsyncError [remoteFile w o, p] err out ∧
        resp.Path = [] ∧
        marshalTransfer resp
          = lit "\x7b\"event\":\"complete\",\"oid\":" ++ appendString o
              ++ lit ",\"error\":\x7b\"code\":" ++ formatInt 4 ++ lit ",\"message\":"
              ++ appendString (rsyncError [remoteFile w o, p] err out) ++ lit "\x7d\x7d") ∧
      (e = none → resp.Path = p ∧ resp.Error = none) := by
  have hr := rsync_eq env [remoteFile w o, p] { w with temps := w.temps + 1 } out e hexec
  have hf : remoteFile { w with temps := w.temps + 1 } o = remoteFile w o := rfl
  cases e with
  | some err =>
    have hd : performDownload env o size a w
        = sendTransferError env o 4 (rsyncError [remoteFile w o, p] err out)
            (World.mk w.remote w.out w.err (w.calls ++ [[remoteFile w o, p]]) (w.temps + 1)
              w.writes) := by
      simp only [performDownload, htmp]
      rw [hf, hr]
      rfl
    have h1 := sendTransferError_out env o 4 (rsyncError [remoteFile w o, p] err out)
      (World.mk w.remote w.out w.err (w.calls ++ [[remoteFile w o, p]]) (w.temps + 1) w.writes)
    refine ⟨⟨lit "complete", o, [], some ⟨4, rsyncError [remoteFile w o, p] err out⟩⟩,
      ?_, ?_, rfl, rfl, ?_, ?_⟩
    · rw [hd, h1.2, sendResponse_writes]
    · rw [hd, h1.1, sendResponse_out]
      rfl
    · intro err2 h2
      cases h2
      exact ⟨rfl, List.suffix_append _ _, rfl, marshalTransfer_error_line o _ 4⟩
    · intro h; cases h
  | none =>
    have hd : performDownload env o size a w
        = (match sendResponse env (.transfer ⟨lit "complete", o, p, none⟩)
            (World.mk w.remote w.out w.err (w.calls ++ [[remoteFile w o, p]]) (w.temps + 1)
              w.writes) with
          | (w3, some e) =>
            writeToStderr (lit "Unable to send completion message: " ++ e ++ [0x0A]) w3
          | (w3, none) => w3) := by
      simp only [performDownload, htmp]
      rw [hf, hr]
      rfl
    have h1 := finish_out (sendResponse env (.transfer ⟨lit "complete", o, p, none⟩)
      (World.mk w.remote w.out w.err (w.calls ++ [[remoteFile w o, p]]) (w.temps + 1) w.writes))
      (fun e => lit "Unable to send completion message: " ++ e ++ [0x0A])
    refine ⟨⟨lit "complete", o, p, none⟩, ?_, ?_, rfl, rfl, ?_, ?_⟩
    · rw [hd, h1.2, sendResponse_writes]
    · rw [hd, h1.1, sendResponse_out]
      rfl
    · intro err2 h2; cases h2
    · intro _; exact ⟨rfl, rfl⟩

/-- C5: an upload with oid `o` of the local path `l` hands exactly one response
to the writer, with exactly one call of `Write`, and its line is emitted when
the writer accepts it: a transfer response with event `complete`, oid `o` and
an empty path.  The response has an error exactly when rsync fails; the error
then has code 5 and a message that ends with the captured output of rsync. -/
theorem performUpload_response (env : Env) (o : GoString) (size : Int) (a : Option action)
    (l : GoString) (w : World) (out : GoString) (e : Option GoString)
    (hexec : env.exec w.calls.length [l, remoteFile w o] = (out, e)) :
    ∃ resp : transferResponse,
      (performUpload env o size a l w).writes = w.writes + 1 ∧
      (performUpload env o size a l w).out
        = (if env.write w.writes (marshalTransfer resp ++ [0x0A]) = none
            then w.out ++ [marshalTransfer resp ++ [0x0A]] else w.out) ∧
      resp.Event = lit "complete" ∧ resp.Oid = o ∧ resp.Path = [] ∧
      (resp.Error ≠ none ↔ e ≠ none) ∧
      (∀ err, e = some err →
        resp.Error = some ⟨5, rsyncError [l, remoteFile w o] err out⟩ ∧
        out <:+ rsyncError [l, remoteFile w o] err out) := by
  have hr := rsync_eq env [l, remoteFile w o] w out e hexec
  cases e with
  | some err =>
    have hd : performUpload env o size a l w
        = sendTransferError env o 5 (rsyncError [l, remoteFile w o] err out)
            (World.mk w.remote w.out w.err (w.calls ++ [[l, remoteFile w o]]) w.temps
              w.writes) := by
      simp only [performUpload, hr]
      rfl
    have h1 := sendTransferError_out env o 5 (rsyncError [l, remoteFile w o] err out)
      (World.mk w.remote w.out w.err (w.calls ++ [[l, remoteFile w o]]) w.temps w.writes)
    refine ⟨⟨lit "complete", o, [], some ⟨5, rsyncError [l, remoteFile w o] err out⟩⟩,
      ?_, ?_, rfl, rfl, rfl, by simp, ?_⟩
    · rw [hd, h1.2, sendResponse_writes]
    · rw [hd, h1.1, sendResponse_out]
      rfl
    · intro err2 h2
      cases h2
      exact ⟨rfl, List.suffix_append _ _⟩
  | none =>
    have hd : performUpload env o size a l w
        = (match sendResponse env (.transfer ⟨lit "complete", o, [], none⟩)
            (World.mk w.remote w.out w.err (w.calls ++ [[l, remoteFile w o]]) w.temps
              w.writes) with
          | (w3, some e) =>
            writeToStderr (lit "Unable to send completion message: " ++ e ++ [0x0A]) w3
          | (w3, none) => w3) := by
      simp only [performUpload, hr]
      rfl
    have h1 := finish_out (sendResponse env (.transfer ⟨lit "complete", o, [], none⟩)
      (World.mk w.remote w.out w.err (w.calls ++ [[l, remoteFile w o]]) w.temps w.writes))
      (fun e => lit "Unable to send completion message: " ++ e ++ [0x0A])
    refine ⟨⟨lit "complete", o, [], none⟩, ?_, ?_, rfl, rfl, rfl, by simp, ?_⟩
    · rw [hd, h1.2, sendResponse_writes]
    · rw [hd, h1.1, sendResponse_out]
      rfl
    · intro err2 h2; cases h2

/-- A raw line as long as the buffer of the scanner, or longer, ends the loop:
nothing is written and the lines after it are not read. -/
theorem main_long (env : Env) (raw : GoString) (rest : List GoString) (w : World)
    (h : raw.length ≥ maxScanTokenSize) : main env (raw :: rest) w = some w := by
  rw [main, if_pos h]

theorem parseJSON_letter_x (t : GoString) : parseJSON (0x78 :: t) = none := by
  have h : skipSpace (0x78 :: t) = 0x78 :: t := by
    rw [skipSpace]; rfl
  rw [parseJSON, h, parseValue]
  simp [isDigit]

theorem unmarshalRequest_letter_x (parseTime : GoString → Option Int) (t : GoString) :
    unmarshalRequest parseTime (0x78 :: t) = none := by
  rw [unmarshalRequest, unmarshalStruct, parseJSON_letter_x]

theorem exampleEnv_unmarshal (line : GoString) :
    exampleEnv.unmarshal line = unmarshalRequest (fun _ => none) line := rfl

theorem longLine_cons : longLine = 0x78 :: List.replicate 65535 0x78 := by
  rw [longLine, List.replicate_succ]

theorem longLine_length : longLine.length = 65536 := by
  rw [longLine, List.length_replicate]

theorem dropCR_longLine : dropCR longLine = longLine := by
  have h : longLine.getLast? = some 0x78 := by
    rw [longLine, List.getLast?_replicate, if_neg (by omega)]
  rw [dropCR, h, if_neg (by simp)]

/-! ## The claims on concrete runs -/

/-- C8 (amended): a response whose strings are valid UTF-8, written by
`json.Marshal` (with or without the newline that `sendResponse` adds) and read
back by `json.Unmarshal` into a zero value of its type, is the response itself:
an `initResponse` with or without error, a `transferResponse` with or without
path and error, a `progressResponse`. -/
theorem response_round_trip (r : response) (hr : r.clean = true) :
    unmarshalLike r (marshal r ++ [0x0A]) = some r ∧ unmarshalLike r (marshal r) = some r := by
  cases r with
  | init r =>
    have h1 := unmarshalInit_marshalInit r hr [0x0A] (Or.inr rfl)
    have h2 := unmarshalInit_marshalInit r hr [] (Or.inl rfl)
    rw [List.append_nil] at h2
    simp only [unmarshalLike, marshal, h1, h2, Option.map_some', and_self]
  | transfer r =>
    have h1 := unmarshalTransfer_marshalTransfer r hr [0x0A] (Or.inr rfl)
    have h2 := unmarshalTransfer_marshalTransfer r hr [] (Or.inl rfl)
    rw [List.append_nil] at h2
    simp only [unmarshalLike, marshal, h1, h2, Option.map_some', and_self]
  | progress r =>
    have h1 := unmarshalProgress_marshalProgress r hr [0x0A] (Or.inr rfl)
    have h2 := unmarshalProgress_marshalProgress r hr [] (Or.inl rfl)
    rw [List.append_nil] at h2
    simp only [unmarshalLike, marshal, h1, h2, Option.map_some', and_self]

set_option maxRecDepth 100000 in
/-- The round trip of the error response of the refused download. -/
theorem response_round_trip_witness :
    (response.transfer refusedResponse).clean = true ∧
    unmarshalLike (.transfer refusedResponse) (marshal (.transfer refusedResponse) ++ [0x0A])
      = some (.transfer refusedResponse) ∧
    unmarshalLike (.transfer refusedResponse) (marshal (.transfer refusedResponse))
      = some (.transfer refusedResponse) :=
  ⟨by decide, response_round_trip (.transfer refusedResponse) (by decide)⟩

set_option maxRecDepth 100000 in
/-- C8 (as stated) fails: when rsync prints a byte that is not valid UTF-8, the
error response that `performUpload` builds carries that byte in its message;
`json.Marshal` writes the escape of U+FFFD in its place, and reading the emitted
line back gives a response with another message. -/
theorem round_trip_loses_invalid_utf8 :
    (performUpload latin1Env (lit "abc123") 10 none (lit "/tmp/obj") initialised).out
      = initialised.out ++ [marshal (.transfer latin1Response) ++ [0x0A]] ∧
    (∃ r, unmarshalLike (.transfer latin1Response) (marshal (.transfer latin1Response) ++ [0x0A])
      = some r ∧ r ≠ .transfer latin1Response) := by
  refine ⟨by decide, ?_⟩
  refine ⟨.transfer { latin1Response with Error := some ⟨5,
    rsyncError [lit "/tmp/obj", lit "/backup/lfs/abc123"] (lit "exit status 23")
      [0xEF, 0xBF, 0xBD]⟩ }, by decide, by decide⟩

set_option maxRecDepth 100000 in
/-- C1 (as stated) fails: in the input of a terminate line followed by an init
line, no line comes before the terminate line, yet the loop goes on to the init
line and emits its response. -/
theorem terminate_does_not_end_loop :
    hasEvent exampleEnv (lit "terminate") terminateLine = true ∧
    (main exampleEnv [] World.start).map World.out = some [] ∧
    (main exampleEnv [terminateLine, initLine] World.start).map World.out
      = some [lit "\x7b\x7d\n"] := by
  decide

set_option maxRecDepth 100000 in
/-- The terminate line of the protocol in the example launch. -/
theorem terminate_line_only_logs_witness :
    terminateLine.length < maxScanTokenSize ∧
    hasEvent exampleEnv (lit "terminate") (dropCR terminateLine) = true ∧
    ((∀ w, handleLine exampleEnv (dropCR terminateLine) w
        = some { w with err := w.err ++ [lit "Terminating rsync agent gracefully.\n"] }) ∧
    (∀ rest w, main exampleEnv (terminateLine :: rest) w
        = main exampleEnv rest
            { w with err := w.err ++ [lit "Terminating rsync agent gracefully.\n"] }) ∧
    (∀ pre post w,
      (main exampleEnv (pre ++ terminateLine :: post) w).map World.quiet
        = (main exampleEnv (pre ++ post) w).map World.quiet) ∧
    (∀ lines w,
      (main exampleEnv lines w).map World.quiet
        = (main exampleEnv
            (lines.filter (fun l => !isRequest exampleEnv (lit "terminate") l)) w).map
            World.quiet)) :=
  ⟨by decide, by decide,
    terminate_line_only_logs exampleEnv terminateLine (by decide) (by decide)⟩

set_option maxRecDepth 100000 in
/-- The scenario of the specification: the init line with the launch argument
`/backup/lfs` gives the line of the empty object. -/
theorem initAgent_response_witness :
    exampleEnv.args[1]? = some (lit "/backup/lfs") ∧
    (main exampleEnv [initLine] World.start).map World.out = some [lit "\x7b\x7d\n"] ∧
    (∃ resp : initResponse,
      initAgent exampleEnv World.start
        = some (sendResponse exampleEnv (.init resp)
            { World.start with remote := lit "/backup/lfs" }).1 ∧
      (∀ w1, initAgent exampleEnv World.start = some w1 →
        w1.writes = World.start.writes + 1 ∧
        w1.out = if exampleEnv.write World.start.writes (marshalInit resp ++ [0x0A]) = none
          then World.start.out ++ [marshalInit resp ++ [0x0A]] else World.start.out) ∧
      (resp.Error ≠ none ↔ lit "/backup/lfs" = []) ∧
      (lit "/backup/lfs" = [] → ∃ m, resp.Error = some ⟨3, m⟩) ∧
      (lit "/backup/lfs" ≠ [] → resp.Error = none ∧ marshalInit resp = lit "\x7b\x7d") ∧
      (∀ line req, exampleEnv.unmarshal line = some req → req.Event = lit "init" →
        ∀ v, handleLine exampleEnv line v = initAgent exampleEnv
          (writeToStderr (lit "Initialising rsync agent for: " ++ req.Operation ++ [0x0A]) v))) :=
  ⟨by decide, by decide, initAgent_response exampleEnv World.start (lit "/backup/lfs") (by decide)⟩

set_option maxRecDepth 100000 in
/-- C3 fails on the code: launched without an argument, the init request makes
`initAgent` read `os.Args[1]` out of range, which is a run-time panic, and no
response is emitted; with the empty string as argument the same request gives
the init response with error code 3. -/
theorem init_without_argument_panics :
    hasEvent noArgEnv (lit "init") initLine = true ∧
    main noArgEnv [initLine] World.start = none ∧
    (main emptyArgEnv [initLine] World.start).map World.out
      = some [marshalInit ⟨some ⟨3, lit "No remote specified when launching the process"⟩⟩
          ++ [0x0A]] := by
  decide

set_option maxRecDepth 100000 in
/-- C10 fails on the code for `initAgent`: when `sendResponse` returns an error
to it (here in the second init request, the writer being in error after a
failed flush), `initAgent` writes no diagnostic about it, while `performUpload`
in the same situation writes one. -/
theorem initAgent_drops_send_error :
    (main fullEnv [initLine, initLine] World.start).map World.err
      = some [lit "Initialising rsync agent for: download\n", lit "Sent message \x7b\x7d\n",
          lit "Initialising rsync agent for: download\n"] ∧
    (main fullEnv [initLine, initLine] World.start).map World.writes = some 2 ∧
    (main fullEnv [initLine, uploadLine] World.start).map World.err
      = some [lit "Initialising rsync agent for: download\n", lit "Sent message \x7b\x7d\n",
          lit "Received upload request for: abc123\n",
          lit "Unable to send completion message: write /dev/stdout: no space left on device\n"] := by
  decide

set_option maxRecDepth 100000 in
/-- The line that is not JSON, in the example launch. -/
theorem malformed_line_is_skipped_witness :
    badLine.length < maxScanTokenSize ∧
    exampleEnv.unmarshal (dropCR badLine) = none ∧
    ((∀ w, handleLine exampleEnv (dropCR badLine) w
        = some { w with
                 err := w.err ++ [lit "Unable to parse request: " ++ dropCR badLine ++ [0x0A]] }) ∧
    (∀ rest w, main exampleEnv (badLine :: rest) w
        = main exampleEnv rest
            { w with
              err := w.err ++ [lit "Unable to parse request: " ++ dropCR badLine ++ [0x0A]] }) ∧
    (∀ pre post w,
      (main exampleEnv (pre ++ badLine :: post) w).map World.quiet
        = (main exampleEnv (pre ++ post) w).map World.quiet)) :=
  ⟨by decide, by decide, malformed_line_is_skipped exampleEnv badLine (by decide) (by decide)⟩

set_option maxRecDepth 100000 in
/-- C6 (as stated) fails: a malformed line of 65536 bytes (the letter `x`,
which `json.Unmarshal` rejects) stops the loop.  In the input of that line
followed by an init line nothing at all is written, neither the diagnostic of
the malformed line nor the response to the init line, which the loop emits when
the init line stands alone or after a short malformed line. -/
theorem malformed_long_line_ends_loop :
    longLine.length = 65536 ∧
    exampleEnv.unmarshal (dropCR longLine) = none ∧
    main exampleEnv [longLine, initLine] World.start = some World.start ∧
    (main exampleEnv [initLine] World.start).map World.out = some [lit "\x7b\x7d\n"] ∧
    (main exampleEnv [badLine, initLine] World.start).map World.out
      = some [lit "\x7b\x7d\n"] := by
  refine ⟨longLine_length, ?_, ?_, by decide, by decide⟩
  · rw [dropCR_longLine, longLine_cons, exampleEnv_unmarshal, unmarshalRequest_letter_x]
  · exact main_long _ _ _ _ (by rw [longLine_length, maxScanTokenSize])

set_option maxRecDepth 100000 in
/-- The scenario of the specification: the download of `abc123` when rsync
fails with the output `connection refused`. -/
theorem performDownload_response_witness :
    refusedEnv.tempFile initialised.temps = .ok (lit "/tmp/rsync-agent0") ∧
    refusedEnv.exec initialised.calls.length
        [remoteFile initialised (lit "abc123"), lit "/tmp/rsync-agent0"]
      = (lit "connection refused", some (lit "exit status 10")) ∧
    (performDownload refusedEnv (lit "abc123") 10 none initialised).out
      = initialised.out ++ [lit ("\x7b\"event\":\"complete\",\"oid\":\"abc123\",\"error\":"
          ++ "\x7b\"code\":4,\"message\":\"Error while running `rsync "
          ++ "[/backup/lfs/abc123 /tmp/rsync-agent0]`: exit status 10\\nconnection refused\""
          ++ "\x7d\x7d\n")] ∧
    (∃ resp : transferResponse,
      (performDownload refusedEnv (lit "abc123") 10 none initialised).writes
        = initialised.writes + 1 ∧
      (performDownload refusedEnv (lit "abc123") 10 none initialised).out
        = (if refusedEnv.write initialised.writes (marshalTransfer resp ++ [0x0A]) = none
            then initialised.out ++ [marshalTransfer resp ++ [0x0A]] else initialised.out) ∧
      resp.Event = lit "complete" ∧ resp.Oid = lit "abc123" ∧
      (∀ err, some (lit "exit status 10") = some err →
        resp.Error = some ⟨4, rsyncError
          [remoteFile initialised (lit "abc123"), lit "/tmp/rsync-agent0"] err
          (lit "connection refused")⟩ ∧
        lit "connection refused" <:+ rsyncError
          [remoteFile initialised (lit "abc123"), lit "/tmp/rsync-agent0"] err
          (lit "connection refused") ∧
        resp.Path = [] ∧
        marshalTransfer resp
          = lit "\x7b\"event\":\"complete\",\"oid\":" ++ appendString (lit "abc123")
              ++ lit ",\"error\":\x7b\"code\":" ++ formatInt 4 ++ lit ",\"message\":"
              ++ appendString (rsyncError
                  [remoteFile initialised (lit "abc123"), lit "/tmp/rsync-agent0"] err
                  (lit "connection refused")) ++ lit "\x7d\x7d") ∧
      (some (lit "exit status 10") = none →
        resp.Path = lit "/tmp/rsync-agent0" ∧ resp.Error = none)) :=
  ⟨rfl, by decide, by decide,
    performDownload_response refusedEnv (lit "abc123") 10 none initialised
      (lit "/tmp/rsync-agent0") (lit "connection refused") (some (lit "exit status 10"))
      rfl (by decide)⟩

set_option maxRecDepth 100000 in
/-- The upload of `abc123` from `/tmp/obj` when rsync succeeds. -/
theorem performUpload_response_witness :
    exampleEnv.exec initialised.calls.length [lit "/tmp/obj", remoteFile initialised (lit "abc123")]
      = ([], none) ∧
    (performUpload exampleEnv (lit "abc123") 10 none (lit "/tmp/obj") initialised).out
      = initialised.out ++ [lit "\x7b\"event\":\"complete\",\"oid\":\"abc123\"\x7d\n"] ∧
    (∃ resp : transferResponse,
      (performUpload exampleEnv (lit "abc123") 10 none (lit "/tmp/obj") initialised).writes
        = initialised.writes + 1 ∧
      (performUpload exampleEnv (lit "abc123") 10 none (lit "/tmp/obj") initialised).out
        = (if exampleEnv.write initialised.writes (marshalTransfer resp ++ [0x0A]) = none
            then initialised.out ++ [marshalTransfer resp ++ [0x0A]] else initialised.out) ∧
      resp.Event = lit "complete" ∧ resp.Oid = lit "abc123" ∧ resp.Path = [] ∧
      (resp.Error ≠ none ↔ (none : Option GoString) ≠ none) ∧
      (∀ err, (none : Option GoString) = some err →
        resp.Error = some ⟨5, rsyncError [lit "/tmp/obj", remoteFile initialised (lit "abc123")]
          err []⟩ ∧
        [] <:+ rsyncError [lit "/tmp/obj", remoteFile initialised (lit "abc123")] err [])) :=
  ⟨by decide, by decide,
    performUpload_response exampleEnv (lit "abc123") 10 none (lit "/tmp/obj") initialised
      [] none (by decide)⟩

set_option maxRecDepth 100000 in
/-- A download and an upload of `abc123` in the example launch. -/
theorem transfer_arguments_witness :
    exampleEnv.tempFile initialised.temps = .ok (lit "/tmp/rsync-agent0") ∧
    (performDownload exampleEnv (lit "abc123") 10 none initialised).calls
      = [[lit "/backup/lfs/abc123", lit "/tmp/rsync-agent0"]] ∧
    ((performDownload exampleEnv (lit "abc123") 10 none initialised).calls
      = initialised.calls ++ [[initialised.remote ++ lit "/" ++ lit "abc123",
          lit "/tmp/rsync-agent0"]] ∧
    (performUpload exampleEnv (lit "abc123") 10 none (lit "/tmp/obj") initialised).calls
      = initialised.calls ++ [[lit "/tmp/obj", initialised.remote ++ lit "/" ++ lit "abc123"]] ∧
    (∀ size2 a2, performDownload exampleEnv (lit "abc123") size2 a2 initialised
      = performDownload exampleEnv (lit "abc123") 10 none initialised) ∧
    (∀ size2 a2, performUpload exampleEnv (lit "abc123") size2 a2 (lit "/tmp/obj") initialised
      = performUpload exampleEnv (lit "abc123") 10 none (lit "/tmp/obj") initialised)) :=
  ⟨rfl, by decide,
    transfer_arguments exampleEnv (lit "abc123") 10 none (lit "/tmp/obj") initialised
      (lit "/tmp/rsync-agent0") rfl⟩

set_option maxRecDepth 100000 in
/-- The example launch, whose argument is `/backup/lfs`. -/
theorem remote_fixed_after_init_witness :
    exampleEnv.args[1]? = some (lit "/backup/lfs") ∧
    (main exampleEnv [initLine, downloadLine, uploadLine, badLine, terminateLine, initLine]
      World.start).map World.remote = some (lit "/backup/lfs") ∧
    (World.start.remote = [] ∧
    (∀ pre, (∀ l ∈ pre, isRequest exampleEnv (lit "init") l = false) →
      ∃ w, main exampleEnv pre World.start = some w ∧ w.remote = []) ∧
    (∀ line w, hasEvent exampleEnv (lit "init") line = true →
      ∃ w1, handleLine exampleEnv line w = some w1 ∧ w1.remote = lit "/backup/lfs" ∧
        ∀ rest, ∃ w2, main exampleEnv rest w1 = some w2 ∧ w2.remote = w1.remote) ∧
    (∀ oid size act path w,
      (performDownload exampleEnv oid size act w).remote = w.remote ∧
      (performUpload exampleEnv oid size act path w).remote = w.remote)) :=
  ⟨by decide, by decide, remote_fixed_after_init exampleEnv (lit "/backup/lfs") (by decide)⟩

end RsyncAgent
